import Mathlib

/-!
Verification development for the retrieval-result processing, quality-gating
and caching core of the RAG API gateway.

The JavaScript source is shallowly embedded:

* JS numbers that carry similarity scores, TTLs and times are modelled as
  exact rationals; rational constants are written with Rat.divInt so that
  they evaluate inside the kernel.  JS division producing NaN or infinities
  is modelled by the JsNum type.
* JS strings are Lean strings; the handful of string primitives used by the
  source (trim, toLowerCase, split on a regex, includes, join) are defined
  here over the character list so that they compute.  Whitespace and
  lowercasing are modelled for the ASCII range, which the properties under
  study exercise.
* JS truthiness tests (the "x || y" idiom) are modelled explicitly: an
  absent value is Option.none and the empty string / zero are falsy.
* The in-memory cache (a pair of Maps plus setTimeout timers) is modelled as
  a state machine: association lists for the two maps, a list of pending
  timers with their firing instants, and an explicit operation that fires
  every timer due at a given instant.  Instants and TTLs are kept in whole
  seconds (the source multiplies the TTL by 1000 to talk to setTimeout in
  milliseconds, a unit change with no observable effect).
-/

/-- Whitespace characters recognised by the JS regex \s (ASCII range). -/
def isWsChar (c : Char) : Bool :=
  c = ' ' || c = '\t' || c = '\n' || c = '\r' || c = '\x0b' || c = '\x0c'

/-- Word characters of the JS regex \w, that is [A-Za-z0-9_]. -/
def isWordChar (c : Char) : Bool :=
  c.isAlphanum || c = '_'

/-- ASCII lowercasing of a string, modelling String.prototype.toLowerCase. -/
def toLowerStr (s : String) : String :=
  String.mk (s.data.map Char.toLower)

/-- Characters-level trim, modelling String.prototype.trim for ASCII whitespace. -/
def jsTrim (s : String) : String :=
  String.mk (((s.data.dropWhile isWsChar).reverse.dropWhile isWsChar).reverse)

mutual

/-- State of String.prototype.split(re) while inside a token: cur is the
token collected so far.  A separator character emits the token and switches
to the skipping state, so leading separators emit an empty first token. -/
def splitGo (p : Char → Bool) : List Char → String → List String
  | [], cur => [cur]
  | c :: cs, cur =>
    if p c then cur :: splitSkip p cs else splitGo p cs (cur.push c)

/-- State of String.prototype.split(re) while consuming a separator run; at
the end of the input it emits the trailing empty token, as JS does. -/
def splitSkip (p : Char → Bool) : List Char → List String
  | [] => [""]
  | c :: cs => if p c then splitSkip p cs else splitGo p cs (String.singleton c)

end

/-- JS s.split(re) for a regex matching a nonempty run of p-characters. -/
def jsSplitRuns (p : Char → Bool) (s : String) : List String :=
  splitGo p s.data ""

/-- JS s.split(/\s+/): tokens between whitespace runs; a leading or trailing
whitespace run contributes an empty token, and the empty string yields
a single empty token. -/
def jsSplitWs (s : String) : List String :=
  jsSplitRuns isWsChar s

mutual

/-- Maximal-run extraction, outside a run: drop until a p-character starts. -/
def runsOut (p : Char → Bool) : List Char → List String
  | [] => []
  | c :: cs => if p c then runsIn p cs (String.singleton c) else runsOut p cs

/-- Maximal-run extraction, inside the run collected in cur. -/
def runsIn (p : Char → Bool) : List Char → String → List String
  | [], cur => [cur]
  | c :: cs, cur => if p c then runsIn p cs (cur.push c) else cur :: runsOut p cs

end

/-- JS s.match(/\b\w+\b/g): the maximal runs of word characters (with a
null match giving the empty list). -/
def wordRuns (s : String) : List String :=
  runsOut isWordChar s.data

/-- JS s.includes(sub): substring test. -/
def includesSubstr (s sub : String) : Bool :=
  s.data.tails.any (fun t => sub.data.isPrefixOf t)

/-- JS "a || d" for a possibly absent string a and a string default d:
a is used only when present and nonempty (truthy). -/
def jsStrOr (o : Option String) (d : String) : String :=
  match o with
  | some s => if s = "" then d else s
  | none => d

/-- JS "a || b" where both sides are possibly absent strings. -/
def jsStrOrO (a b : Option String) : Option String :=
  match a with
  | some s => if s = "" then b else some s
  | none => b

/-- JS "a || null" for a possibly absent number: 0 is falsy and collapses
to null. -/
def jsNumOrNull (o : Option Int) : Option Int :=
  match o with
  | some n => if n = 0 then none else some n
  | none => none

/-- JS "a || d" for a possibly absent number with a numeric default. -/
def jsNumOr (o : Option Int) (d : Int) : Int :=
  match o with
  | some n => if n = 0 then d else n
  | none => d

/-- Insertion-order deduplication, the observable behaviour of building a JS
Set from a list and spreading it back: keeps the first occurrence of each
element. -/
def firstSeenDedup {α : Type} [DecidableEq α] (seen : List α) : List α → List α
  | [] => []
  | x :: xs => if x ∈ seen then firstSeenDedup seen xs else x :: firstSeenDedup (x :: seen) xs

/-- JS number results that similarity arithmetic can produce. -/
inductive JsNum where
  | nan
  | inf
  | negInf
  | num (q : ℚ)
deriving DecidableEq

/-- JS division on finite numbers: 0/0 is NaN and x/0 is a signed infinity. -/
def jsDiv (a b : ℚ) : JsNum :=
  if b = 0 then
    if a = 0 then JsNum.nan else if a > 0 then JsNum.inf else JsNum.negInf
  else JsNum.num (a / b)

/-- JS Math.max over a spread list: -Infinity on the empty list. -/
def jsMaxL : List ℚ → JsNum
  | [] => JsNum.negInf
  | x :: xs => JsNum.num (xs.foldl max x)

/-- Comparison of a JS numeric result against a finite constant. -/
def jsLtQ (a : JsNum) (c : ℚ) : Bool :=
  match a with
  | JsNum.nan => false
  | JsNum.inf => false
  | JsNum.negInf => true
  | JsNum.num q => decide (q < c)

/-- Fixed-point rendering of a nonnegative rational with three decimals,
rounding half up; models Number.prototype.toFixed(3) on exact decimal
values (binary floating point artifacts are not modelled). -/
def toFixed3Nonneg (q : ℚ) : String :=
  let m := (⌊q * 1000 + Rat.divInt 1 2⌋).toNat
  let frac := m % 1000
  toString (m / 1000) ++ "." ++
    (if frac < 10 then "00" ++ toString frac
     else if frac < 100 then "0" ++ toString frac
     else toString frac)

/-- Number.prototype.toFixed(3) for a finite rational of either sign. -/
def toFixed3 (q : ℚ) : String :=
  if q < 0 then "-" ++ toFixed3Nonneg (-q) else toFixed3Nonneg q

/-- Rendering used when a JS numeric result is interpolated with toFixed. -/
def jsToFixed3 : JsNum → String
  | JsNum.nan => "NaN"
  | JsNum.inf => "Infinity"
  | JsNum.negInf => "-Infinity"
  | JsNum.num q => toFixed3 q

/-! ## Data model of retrieval results (queryProcessor.js and ragController.js) -/

/-- Metadata object attached to a retrieval result.  The source accesses the
fields source, page, section, chunk_order (curation) and source_file,
document_name, document_id (controller formatting and quality gating); each
may be absent. -/
structure Metadata where
  source : Option String
  source_file : Option String
  document_name : Option String
  document_id : Option String
  page : Option Int
  sectionName : Option String
  chunk_order : Option Int
deriving DecidableEq

/-- Metadata object with every field absent, the JS literal given by
"result.metadata || \x7b\x7d". -/
def emptyMetadata : Metadata :=
  ⟨none, none, none, none, none, none, none⟩

/-- Raw search result as returned by the retrieval backend. -/
structure RawResult where
  chunk_id : String
  content : String
  similarity_score : ℚ
  document_id : Option String
  metadata : Option Metadata
deriving DecidableEq

/-- Source block of a curated result. -/
structure SourceInfo where
  document_id : Option String
  source_file : String
  page : Option Int
  sectionName : String
  chunk_order : Int
deriving DecidableEq

/-- Curated result produced by formatResultsWithCitations. -/
structure CuratedResult where
  id : String
  rank : Nat
  score : ℚ
  content : String
  relevant_extracts : List String
  source : SourceInfo
  citation : String
  metadata : Metadata
deriving DecidableEq

/-! ## QueryProcessor (queryProcessor.js) -/

/-- Query expansion table, in the literal key order of the source object. -/
def queryExpansions : List (String × List String) :=
  [("install", ["setup", "configuration", "getting started"]),
   ("error", ["issue", "problem", "troubleshoot", "fix"]),
   ("config", ["configuration", "settings", "preferences", "options"]),
   ("api", ["interface", "endpoint", "call", "integration"]),
   ("auth", ["authentication", "authorization", "login", "security"]),
   ("performance", ["speed", "optimization", "efficiency", "benchmark"]),
   ("deploy", ["deployment", "release", "publish", "ship"]),
   ("upgrade", ["update", "migration", "version", "change"]),
   ("monitor", ["track", "observe", "watch", "metrics", "logging"]),
   ("backup", ["restore", "recovery", "archive", "save"])]

/-- Stop-word list of rewriteQuery. -/
def stopWords : List String :=
  ["the", "a", "an", "and", "or", "but", "in", "on", "at", "to", "for", "of", "with", "by"]

/-- Result of rewriteQuery. -/
structure ProcessedQuery where
  original : String
  expanded : String
  terms : List String
  expansions : List String
deriving DecidableEq

/-- Embedding of QueryProcessor.rewriteQuery: trim and lowercase the query,
collect expansions of every trigger word occurring as a substring (in table
order), drop stop words from the whitespace tokens, and deduplicate the
concatenation in first-seen order. -/
def rewriteQuery (query : String) : ProcessedQuery :=
  let originalQuery := jsTrim query
  let rewrittenQuery := toLowerStr originalQuery
  let expansions := queryExpansions.foldl
    (fun acc p => if includesSubstr rewrittenQuery p.1 then acc ++ p.2 else acc) []
  let words := (jsSplitWs rewrittenQuery).filter (fun w => !(stopWords.contains w))
  let allTerms := firstSeenDedup [] (words ++ expansions)
  { original := originalQuery
    expanded := String.intercalate " " allTerms
    terms := allTerms
    expansions := expansions }

/-- Technical-term test of isTechnicalTerm, pattern 1: ^[a-z]+[A-Z][a-zA-Z]*$ .
Since the lower and upper ranges are disjoint, maximal munch is exact. -/
def isCamelCase (s : String) : Bool :=
  let ls := s.data.takeWhile (fun c => c.isLower)
  let rest := s.data.dropWhile (fun c => c.isLower)
  !ls.isEmpty &&
    (match rest with
     | c :: tl => c.isUpper && tl.all (fun d => d.isUpper || d.isLower)
     | [] => false)

/-- Technical-term test, pattern 2: ^[A-Z_]+$ . -/
def isScreamingSnake (s : String) : Bool :=
  !s.data.isEmpty && s.data.all (fun c => c.isUpper || c = '_')

/-- Technical-term test, pattern 3: [0-9]\x7b2,\x7d , two adjacent digits somewhere. -/
def hasTwoDigits (s : String) : Bool :=
  s.data.tails.any (fun t =>
    match t with
    | a :: b :: _ => a.isDigit && b.isDigit
    | _ => false)

/-- File extensions of pattern 4. -/
def knownExtensions : List String :=
  ["com", "org", "net", "io", "js", "py", "java", "html", "css", "sql"]

/-- Technical-term test, pattern 4: \.(com|org|...)$ . -/
def hasKnownExtension (s : String) : Bool :=
  knownExtensions.any (fun e => ("." ++ e).data.isSuffixOf s.data)

/-- Acronym whitelist of pattern 5. -/
def knownAcronyms : List String :=
  ["api", "sdk", "cli", "gui", "ui", "ux", "http", "https", "url", "uri",
   "json", "xml", "yaml", "toml", "env", "cfg"]

/-- Embedding of QueryProcessor.isTechnicalTerm. -/
def isTechnicalTerm (term : String) : Bool :=
  isCamelCase term || isScreamingSnake term || hasTwoDigits term ||
    hasKnownExtension term || knownAcronyms.contains term

/-- Complexity record of analyzeQueryComplexity. -/
structure Complexity where
  termCount : Nat
  averageLength : JsNum
  hasTechnicalTerms : Bool
  isComplex : Bool
deriving DecidableEq

/-- Embedding of QueryProcessor.analyzeQueryComplexity.  The average length
divides by terms.length with no emptiness guard, which is the JS division
modelled by jsDiv (0/0 gives NaN). -/
def analyzeQueryComplexity (terms : List String) : Complexity :=
  { termCount := terms.length
    averageLength :=
      jsDiv (terms.foldl (fun sum term => sum + (term.length : ℚ)) 0) (terms.length : ℚ)
    hasTechnicalTerms := terms.any isTechnicalTerm
    isComplex := decide (terms.length > 3) || terms.any (fun term => decide (term.length > 15)) }

/-- Embedding of QueryProcessor.prepareSearchQuery. -/
structure SearchParams where
  originalQuery : String
  searchQuery : String
  topK : Nat
  expansionTerms : List String
  queryComplexity : Complexity
deriving DecidableEq

/-- Embedding of QueryProcessor.prepareSearchQuery. -/
def prepareSearchQuery (query : String) (topK : Nat) : SearchParams :=
  let processed := rewriteQuery query
  { originalQuery := processed.original
    searchQuery := processed.expanded
    topK := min (topK + 2) 20
    expansionTerms := processed.expansions
    queryComplexity := analyzeQueryComplexity processed.terms }

/-! ## Curation pipeline (queryProcessor.js, formatResultsWithCitations) -/

/-- Embedding of calculateContentSimilarity: Jaccard similarity of the
lowercase word sets of the two contents, 0 when the union is empty.  JS Sets
are modelled as first-seen deduplicated lists; the division is exact. -/
def calculateContentSimilarity (content1 content2 : String) : ℚ :=
  let words1 := firstSeenDedup [] (wordRuns (toLowerStr content1))
  let words2 := firstSeenDedup [] (wordRuns (toLowerStr content2))
  let inter := words1.filter (fun x => x ∈ words2)
  let union := firstSeenDedup [] (words1 ++ words2)
  if union.length > 0 then Rat.divInt inter.length union.length else 0

/-- Duplicate test of deduplicateResults: strictly more than 0.9 Jaccard
similarity against an already kept result. -/
def isDuplicateOf (r : RawResult) (kept : List RawResult) : Bool :=
  kept.any (fun existing =>
    decide (calculateContentSimilarity r.content existing.content > Rat.divInt 9 10))

/-- Walk of deduplicateResults over the score-sorted list, carrying the
already kept results. -/
def dedupGo (kept : List RawResult) : List RawResult → List RawResult
  | [] => kept
  | r :: rs => if isDuplicateOf r kept then dedupGo kept rs else dedupGo (kept ++ [r]) rs

/-- Embedding of deduplicateResults: lists with at most one element are
returned unchanged, otherwise the similarity walk keeps a result only if it
is not a near duplicate of an already kept one. -/
def deduplicateResults (results : List RawResult) : List RawResult :=
  if results.length ≤ 1 then results else dedupGo [] results

/-- Document key of groupResultsByDocument:
result.document_id || result.metadata?.source || "unknown". -/
def docKey (r : RawResult) : String :=
  jsStrOr r.document_id (jsStrOr (r.metadata.bind (fun m => m.source)) "unknown")

/-- Stable insertion (descending by similarity score), placing the new
element before every already placed element of less or equal score. -/
def insertDesc (x : RawResult) : List RawResult → List RawResult
  | [] => [x]
  | y :: ys =>
    if decide (y.similarity_score ≤ x.similarity_score) then x :: y :: ys
    else y :: insertDesc x ys

/-- Stable sort descending by similarity score, the observable behaviour of
the stable JS Array.prototype.sort with comparator (a, b) =>
b.similarity_score - a.similarity_score. -/
def sortDesc : List RawResult → List RawResult
  | [] => []
  | x :: xs => insertDesc x (sortDesc xs)

/-- Append a result to its group in the grouping object, or open a new group
at the end; JS object insertion order for the non-numeric keys in use. -/
def ginsert : List (String × List RawResult) → String → RawResult → List (String × List RawResult)
  | [], k, r => [(k, [r])]
  | p :: rest, k, r =>
    if p.1 = k then (p.1, p.2 ++ [r]) :: rest else p :: ginsert rest k r

/-- Loop of groupResultsByDocument building the documentGroups object. -/
def groupsOfAux (acc : List (String × List RawResult)) : List RawResult → List (String × List RawResult)
  | [] => acc
  | r :: rs => groupsOfAux (ginsert acc (docKey r) r) rs

/-- The documentGroups object of groupResultsByDocument, as an association
list in key insertion order. -/
def groupsOf (results : List RawResult) : List (String × List RawResult) :=
  groupsOfAux [] results

/-- Embedding of groupResultsByDocument: lists with at most one element are
returned unchanged; otherwise at most 2 chunks are kept per document key and
the concatenation is re-sorted descending by score. -/
def groupResultsByDocument (results : List RawResult) : List RawResult :=
  if results.length ≤ 1 then results
  else sortDesc ((groupsOf results).flatMap (fun p => p.2.take 2))

/-- Embedding of extractRelevantSentences: sentences are the nonempty
trimmed chunks between runs of . ! ?, query terms are the whitespace tokens
of the lowercased query longer than 2 characters, and at most 3 sentences
containing a term (case-insensitively) are kept. -/
def extractRelevantSentences (content query : String) : List String :=
  let sentences :=
    ((jsSplitRuns (fun c => c = '.' || c = '!' || c = '?') content).map jsTrim).filter
      (fun s => decide (s.length > 0))
  let queryTerms := (jsSplitWs (toLowerStr query)).filter (fun t => decide (t.length > 2))
  (sentences.filter (fun sentence =>
    queryTerms.any (fun term => includesSubstr (toLowerStr sentence) term))).take 3

/-- Annotation step of formatResultsWithCitations for the element at
0-based index i of the final list. -/
def curateOne (originalQuery : String) (i : Nat) (r : RawResult) : CuratedResult :=
  { id := r.chunk_id
    rank := i + 1
    score := r.similarity_score
    content := r.content
    relevant_extracts := extractRelevantSentences r.content originalQuery
    source :=
      { document_id := r.document_id
        source_file := jsStrOr (r.metadata.bind (fun m => m.source)) "unknown"
        page := jsNumOrNull (r.metadata.bind (fun m => m.page))
        sectionName := jsStrOr (r.metadata.bind (fun m => m.sectionName)) "general"
        chunk_order := jsNumOr (r.metadata.bind (fun m => m.chunk_order)) 0 }
    citation := "[" ++ toString (i + 1) ++ "] Source: " ++
      jsStrOr (r.metadata.bind (fun m => m.source)) "Unknown Document"
    metadata := r.metadata.getD emptyMetadata }

/-- Embedding of formatResultsWithCitations: sort descending by score,
deduplicate, group and cap per document, then annotate with ranks starting
at 1 and citations. -/
def formatResultsWithCitations (results : List RawResult) (originalQuery : String) : List CuratedResult :=
  if results.length = 0 then []
  else
    ((groupResultsByDocument (deduplicateResults (sortDesc results))).enum).map
      (fun p => curateOne originalQuery p.1 p.2)

/-! ## CacheService (cacheService.js) -/

/-- JS values stored in the cache, with their truthiness structure. -/
inductive JsValue where
  | vUndefined
  | vNull
  | vBool (b : Bool)
  | vNum (q : ℚ)
  | vNaN
  | vStr (s : String)
  | vObj (id : Nat)
deriving DecidableEq

/-- JS truthiness: undefined, null, NaN, false, 0 and the empty string are
falsy; objects are always truthy. -/
def truthy : JsValue → Bool
  | JsValue.vUndefined => false
  | JsValue.vNull => false
  | JsValue.vNaN => false
  | JsValue.vBool b => b
  | JsValue.vNum q => decide (q ≠ 0)
  | JsValue.vStr s => decide (s ≠ "")
  | JsValue.vObj _ => true

/-- Lookup in an association list modelling a JS Map (unique keys). -/
def alookup {α : Type} : List (String × α) → String → Option α
  | [], _ => none
  | p :: rest, k => if p.1 = k then some p.2 else alookup rest k

/-- JS Map.set: replace in place if the key is present, else append. -/
def ainsert {α : Type} : List (String × α) → String → α → List (String × α)
  | [], k, v => [(k, v)]
  | p :: rest, k, v =>
    if p.1 = k then (k, v) :: rest else p :: ainsert rest k v

/-- JS Map.delete: remove the entry with the given key if present. -/
def aerase {α : Type} : List (String × α) → String → List (String × α)
  | [], _ => []
  | p :: rest, k => if p.1 = k then rest else p :: aerase rest k

/-- Keys of an association list. -/
def akeys {α : Type} (l : List (String × α)) : List String :=
  l.map (fun p => p.1)

/-- Pending setTimeout callback scheduled by setCacheWithExpiration:
identifier, cache key it will delete, and firing instant (seconds). -/
structure PendingTimer where
  tid : Nat
  key : String
  fireAt : ℤ
deriving DecidableEq

/-- State of the module: memoryCache and cacheTimeouts Maps, the pending
timers of the JS event loop, and a fresh-identifier counter. -/
structure CacheSys where
  mem : List (String × JsValue)
  timeouts : List (String × Nat)
  pending : List PendingTimer
  nextId : Nat
deriving DecidableEq

/-- Initial state: both maps empty and no pending timer. -/
def initCache : CacheSys :=
  { mem := [], timeouts := [], pending := [], nextId := 0 }

/-- Embedding of clearExpired: if cacheTimeouts holds a timeout id for the
key, that pending timer is cancelled (clearTimeout) and the id is removed. -/
def clearExpired (k : String) (s : CacheSys) : CacheSys :=
  match alookup s.timeouts k with
  | some tid =>
    { s with
      pending := s.pending.filter (fun tm => !(tm.tid = tid : Bool))
      timeouts := aerase s.timeouts k }
  | none => s

/-- Embedding of setCacheWithExpiration at instant now: cancel any old timer
for the key, store the value, schedule deletion ttl seconds later and record
the new timeout id. -/
def setCacheWithExpiration (k : String) (v : JsValue) (ttl : ℤ) (now : ℤ) (s : CacheSys) : CacheSys :=
  let s1 := clearExpired k s
  { mem := ainsert s1.mem k v
    timeouts := ainsert s1.timeouts k s1.nextId
    pending := s1.pending ++ [{ tid := s1.nextId, key := k, fireAt := now + ttl }]
    nextId := s1.nextId + 1 }

/-- Embedding of getCache: memoryCache.get(key) || null, so a stored falsy
value reads back as absent. -/
def getCache (k : String) (s : CacheSys) : Option JsValue :=
  match alookup s.mem k with
  | some v => if truthy v then some v else none
  | none => none

/-- Embedding of deleteCache: cancel the pending timer and remove the entry,
reporting whether an entry was removed. -/
def deleteCache (k : String) (s : CacheSys) : CacheSys × Bool :=
  let s1 := clearExpired k s
  ({ s1 with mem := aerase s1.mem k }, decide ((alookup s1.mem k).isSome = true))

/-- Body of the setTimeout callback of setCacheWithExpiration: delete the
entry and drop the timeout id. -/
def fireOne (s : CacheSys) (tm : PendingTimer) : CacheSys :=
  { s with mem := aerase s.mem tm.key, timeouts := aerase s.timeouts tm.key }

/-- Fire every pending timer due at or before instant t.  The callbacks of
distinct due timers touch distinct keys (an invariant proved below), so the
processing order is immaterial; they are run in list order. -/
def fireDue (t : ℤ) (s : CacheSys) : CacheSys :=
  let due := s.pending.filter (fun tm => decide (tm.fireAt ≤ t))
  let rest := s.pending.filter (fun tm => !(decide (tm.fireAt ≤ t)))
  due.foldl fireOne { s with pending := rest }

/-- Well-formedness of a cache state: the two maps have unique keys, at most
one pending timer exists per key, pending timers and recorded timeout ids
correspond exactly, and every recorded id is below the fresh counter. -/
def CacheInv (s : CacheSys) : Prop :=
  (akeys s.mem).Nodup ∧
  (akeys s.timeouts).Nodup ∧
  (s.pending.map (fun tm => tm.key)).Nodup ∧
  (s.pending.map (fun tm => tm.tid)).Nodup ∧
  (∀ tm ∈ s.pending, alookup s.timeouts tm.key = some tm.tid) ∧
  (∀ k tid, alookup s.timeouts k = some tid →
    ∃ tm ∈ s.pending, tm.key = k ∧ tm.tid = tid) ∧
  (∀ tm ∈ s.pending, tm.tid < s.nextId)

/-- At most one pending expiration timer per key, the per-instant invariant
claimed by the specification. -/
def atMostOneTimerPerKey (s : CacheSys) : Prop :=
  ∀ k, (s.pending.filter (fun tm => tm.key = k)).length ≤ 1

/-! ## RAGController (ragController.js) -/

/-- Formatted result built by searchDocuments / queryDocumentsWithLLM from a
raw result: source is the raw metadata object and source_file is
metadata?.source_file || metadata?.document_name. -/
structure FormattedResult where
  id : String
  content : String
  score : ℚ
  source : Option Metadata
  source_file : Option String
deriving DecidableEq

/-- Mapping from a raw result to the formatted result of the controller. -/
def formatForController (r : RawResult) : FormattedResult :=
  { id := r.chunk_id
    content := r.content
    score := r.similarity_score
    source := r.metadata
    source_file := jsStrOrO (r.metadata.bind (fun m => m.source_file))
      (r.metadata.bind (fun m => m.document_name)) }

/-- Quality verdict of validateRetrievalQuality. -/
structure QualityVerdict where
  isValid : Bool
  reason : String
  details : String
deriving DecidableEq

/-- Unique-document key of validateRetrievalQuality:
result.source?.source_file || result.source?.document_id, a JS value that
may be undefined (none). -/
def uniqueDocKey (r : FormattedResult) : Option String :=
  jsStrOrO (r.source.bind (fun m => m.source_file)) (r.source.bind (fun m => m.document_id))

/-- Embedding of validateRetrievalQuality with its two constants
MIN_SIMILARITY_THRESHOLD = 0.1 and MIN_UNIQUE_DOCUMENTS = 1.  Scores are
taken from the formatted results, the maximum via Math.max (so -Infinity on
an empty spread), and the unique documents via a JS Set. -/
def validateRetrievalQuality (rawResults : List RawResult) (formattedResults : List FormattedResult) : QualityVerdict :=
  if rawResults.length = 0 then
    { isValid := false
      reason := "No relevant documents found"
      details := "Retrieved 0 results from vector store" }
  else
    let maxScore := jsMaxL (formattedResults.map (fun r => r.score))
    if jsLtQ maxScore (Rat.divInt 1 10) then
      { isValid := false
        reason := "Maximum similarity score (" ++ jsToFixed3 maxScore ++
          ") below minimum threshold (0.1)"
        details := "Best match score: " ++ jsToFixed3 maxScore ++ ", threshold: 0.1" }
    else
      let uniqueDocuments := firstSeenDedup [] (formattedResults.map uniqueDocKey)
      if uniqueDocuments.length < 1 then
        { isValid := false
          reason := "Number of unique documents (" ++ toString uniqueDocuments.length ++
            ") below minimum requirement (1)"
          details := "Found " ++ toString uniqueDocuments.length ++
            " unique documents, required at least 1" }
      else
        { isValid := true
          reason := "All quality checks passed"
          details := "Max similarity: " ++ jsToFixed3 maxScore ++ ", Unique docs: " ++
            toString uniqueDocuments.length }

/-- Embedding of getCacheTTL: 300 seconds when query.split(/\s+/) has more
than 10 components, else 600 seconds. -/
def getCacheTTL (query : String) : Nat :=
  if (jsSplitWs query).length > 10 then 300 else 600

/-- Response assembled by searchDocuments (the fields the cache-gating logic
depends on). -/
structure SearchResponse where
  results : List FormattedResult
  total_results : Nat
  retrieval_gated : Bool
  gating_reason : Option String
deriving DecidableEq

/-- Cache-relevant outcome of one searchDocuments request on a given cache
lookup result and backend results: the response returned to the caller and
the list of cacheResult writes performed (key and TTL). -/
def searchDocumentsStep (query : String) (topK : Nat) (cached : Option SearchResponse)
    (raw : List RawResult) : SearchResponse × List (String × Nat) :=
  match cached with
  | some c => (c, [])
  | none =>
    let formatted := raw.map formatForController
    let validation := validateRetrievalQuality raw formatted
    let response : SearchResponse :=
      { results := formatted
        total_results := formatted.length
        retrieval_gated := !validation.isValid
        gating_reason := if validation.isValid then none else some validation.reason }
    (response,
      if validation.isValid then
        [("search:" ++ query ++ ":" ++ toString topK, getCacheTTL query)]
      else [])

/-- Response assembled by queryDocumentsWithLLM (the fields the cache-gating
logic depends on). -/
structure LLMResponse where
  answer : String
  sources : List FormattedResult
  total_sources : Nat
  retrieval_gated : Bool
  gating_reason : Option String
deriving DecidableEq

/-- Fallback answer substituted by queryDocumentsWithLLM when the quality
gate fails. -/
def gatedAnswerText : String :=
  "Unable to generate answer due to low-quality retrieval results. The retrieved documents do not meet the minimum quality thresholds."

/-- Cache-relevant outcome of one queryDocumentsWithLLM request: the
response returned to the caller and the cacheResult writes performed. -/
def llmDocumentsStep (query : String) (topK : Nat) (cached : Option LLMResponse)
    (backendAnswer : String) (raw : List RawResult) : LLMResponse × List (String × Nat) :=
  match cached with
  | some c => (c, [])
  | none =>
    let formatted := raw.map formatForController
    let validation := validateRetrievalQuality raw formatted
    let response : LLMResponse :=
      { answer := if validation.isValid then backendAnswer else gatedAnswerText
        sources := if validation.isValid then formatted else []
        total_sources := if validation.isValid then formatted.length else 0
        retrieval_gated := !validation.isValid
        gating_reason := if validation.isValid then none else some validation.reason }
    (response,
      if validation.isValid then
        [("llm:" ++ query ++ ":" ++ toString topK, getCacheTTL query)]
      else [])

/-- Embedding of getCachedResult: the value read by getCache is returned
when truthy, otherwise null is returned (a cache miss). -/
def getCachedResult (k : String) (s : CacheSys) : Option JsValue :=
  match getCache k s with
  | some v => if truthy v then some v else none
  | none => none

/-! ## Concrete sample data used by the testable-property instances -/

/-- Two results with the same nonempty content, distinct ids and documents. -/
def sampleIdenticalA : RawResult :=
  ⟨"dupA", "alpha beta", Rat.divInt 9 10, some "doc1", none⟩

/-- Second of the identical-content pair. -/
def sampleIdenticalB : RawResult :=
  ⟨"dupB", "alpha beta", Rat.divInt 4 5, some "doc2", none⟩

/-- First of a pair whose word sets share half of their words. -/
def sampleHalfA : RawResult :=
  ⟨"halfA", "alpha beta", Rat.divInt 9 10, some "doc1", none⟩

/-- Second of the half-overlap pair: word sets share the word alpha only. -/
def sampleHalfB : RawResult :=
  ⟨"halfB", "alpha gamma", Rat.divInt 4 5, some "doc2", none⟩

/-- Two results with identical empty content (no word characters at all). -/
def sampleEmptyA : RawResult :=
  ⟨"emptyA", "", Rat.divInt 9 10, some "doc1", none⟩

/-- Second of the empty-content pair. -/
def sampleEmptyB : RawResult :=
  ⟨"emptyB", "", Rat.divInt 4 5, some "doc2", none⟩

/-- Five results of one document with descending scores 0.9 .. 0.5. -/
def fiveSameDoc : List RawResult :=
  [⟨"c1", "alpha one", Rat.divInt 9 10, some "doc1", none⟩,
   ⟨"c2", "bravo two", Rat.divInt 4 5, some "doc1", none⟩,
   ⟨"c3", "charlie three", Rat.divInt 7 10, some "doc1", none⟩,
   ⟨"c4", "delta four", Rat.divInt 3 5, some "doc1", none⟩,
   ⟨"c5", "echo five", Rat.divInt 1 2, some "doc1", none⟩]

/-- Highest scored result of document A for the rank-order instance. -/
def cexA1 : RawResult := ⟨"a1", "alpha beta", Rat.divInt 9 10, some "docA", none⟩

/-- Result of document B tied at score 0.5, earlier in the input than cexA2. -/
def cexB1 : RawResult := ⟨"b1", "gamma delta", Rat.divInt 1 2, some "docB", none⟩

/-- Result of document A tied at score 0.5, later in the input than cexB1. -/
def cexA2 : RawResult := ⟨"a2", "epsilon zeta", Rat.divInt 1 2, some "docA", none⟩

/-- One well-scored result with a source file, passing the quality gate. -/
def sampleGoodResult : RawResult :=
  ⟨"g1", "alpha beta", Rat.divInt 1 2, some "docG",
    some ⟨some "fileG", some "fileG", none, none, none, none, none⟩⟩

/-- Query of exactly 11 whitespace-delimited words and no outer whitespace. -/
def elevenWordQuery : String :=
  "one two three four five six seven eight nine ten eleven"

/-- Query of exactly 5 whitespace-delimited words and no outer whitespace. -/
def fiveWordQuery : String := "one two three four five"

/-! ## Predicates used by the statements -/

/-- Descending-score ordering used in sortedness statements. -/
def scoreGE (a b : RawResult) : Prop :=
  b.similarity_score ≤ a.similarity_score

/-- Pairwise relation guaranteed among kept results: a later kept result is
not a near duplicate of an earlier kept one (in the comparison order the
code uses, later content first). -/
def notNearDup (e r : RawResult) : Prop :=
  calculateContentSimilarity r.content e.content ≤ Rat.divInt 9 10

instance scoreGE_decidable : DecidableRel scoreGE := fun a b =>
  decidable_of_iff (b.similarity_score ≤ a.similarity_score) Iff.rfl

/-- Membership of a result in the document group named k. -/
def keyIs (k : String) (r : RawResult) : Bool :=
  decide (docKey r = k)

/-- Invariant of the grouping loop: the accumulated groups hold exactly the
already processed results filtered by their key, group keys are unique, and
every processed result has its key among the group keys. -/
def GroupsInv (processed : List RawResult) (acc : List (String × List RawResult)) : Prop :=
  (∀ p ∈ acc, p.2 = processed.filter (keyIs p.1)) ∧
  (akeys acc).Nodup ∧
  (∀ x ∈ processed, docKey x ∈ akeys acc)

/-! ## Helper lemmas: first-seen deduplication -/

theorem firstSeenDedup_not_mem_seen {α : Type} [DecidableEq α] :
    ∀ (l seen : List α), ∀ x ∈ firstSeenDedup seen l, x ∉ seen := by
  intro l
  induction l with
  | nil => intro seen x hx; simp [firstSeenDedup] at hx
  | cons a as ih =>
    intro seen x hx
    by_cases ha : a ∈ seen
    · rw [firstSeenDedup, if_pos ha] at hx
      exact ih seen x hx
    · rw [firstSeenDedup, if_neg ha] at hx
      rcases List.mem_cons.mp hx with rfl | hx
      · exact ha
      · intro hmem
        exact ih (a :: seen) x hx (List.mem_cons_of_mem a hmem)

theorem firstSeenDedup_nodup {α : Type} [DecidableEq α] :
    ∀ (l seen : List α), (firstSeenDedup seen l).Nodup := by
  intro l
  induction l with
  | nil => intro seen; simp [firstSeenDedup]
  | cons a as ih =>
    intro seen
    by_cases ha : a ∈ seen
    · rw [firstSeenDedup, if_pos ha]; exact ih seen
    · rw [firstSeenDedup, if_neg ha]
      refine List.nodup_cons.mpr ⟨?_, ih (a :: seen)⟩
      intro hmem
      exact firstSeenDedup_not_mem_seen as (a :: seen) a hmem (List.mem_cons_self a seen)


/-! ## Helper lemmas: association lists modelling JS Maps -/

theorem alookup_ainsert_self {α : Type} :
    ∀ (l : List (String × α)) (k : String) (v : α), alookup (ainsert l k v) k = some v := by
  intro l k v
  induction l with
  | nil => simp [ainsert, alookup]
  | cons p rest ih =>
    by_cases h : p.1 = k
    · rw [ainsert, if_pos h, alookup, if_pos rfl]
    · rw [ainsert, if_neg h, alookup, if_neg h]
      exact ih

theorem alookup_ainsert_ne {α : Type} :
    ∀ (l : List (String × α)) (k' k : String) (v : α), k' ≠ k →
      alookup (ainsert l k' v) k = alookup l k := by
  intro l k' k v hne
  induction l with
  | nil => simp [ainsert, alookup, hne]
  | cons p rest ih =>
    by_cases h : p.1 = k'
    · simp [ainsert, alookup, h, hne]
    · rw [ainsert, if_neg h, alookup, alookup]
      by_cases h2 : p.1 = k
      · rw [if_pos h2, if_pos h2]
      · rw [if_neg h2, if_neg h2]
        exact ih

theorem mem_akeys_of_alookup {α : Type} :
    ∀ (l : List (String × α)) (k : String) (v : α), alookup l k = some v → k ∈ akeys l := by
  intro l k v h
  induction l with
  | nil => simp [alookup] at h
  | cons p rest ih =>
    rw [alookup] at h
    by_cases hp : p.1 = k
    · exact hp ▸ List.mem_cons_self _ _
    · rw [if_neg hp] at h
      exact List.mem_cons_of_mem _ (ih h)

theorem alookup_eq_none_of_not_mem {α : Type} :
    ∀ (l : List (String × α)) (k : String), k ∉ akeys l → alookup l k = none := by
  intro l k h
  induction l with
  | nil => rfl
  | cons p rest ih =>
    rw [akeys, List.map_cons] at h
    rw [alookup, if_neg (fun e => h (List.mem_cons.mpr (Or.inl e.symm)))]
    exact ih (fun hm => h (List.mem_cons_of_mem _ hm))

theorem akeys_aerase_sublist {α : Type} :
    ∀ (l : List (String × α)) (k : String), (akeys (aerase l k)).Sublist (akeys l) := by
  intro l k
  induction l with
  | nil => simp [aerase]
  | cons p rest ih =>
    by_cases h : p.1 = k
    · rw [aerase, if_pos h, akeys, akeys, List.map_cons]
      exact (List.sublist_cons_self _ _)
    · rw [aerase, if_neg h, akeys, akeys, List.map_cons, List.map_cons]
      exact List.Sublist.cons₂ _ ih

theorem akeys_aerase_nodup {α : Type} (l : List (String × α)) (k : String)
    (h : (akeys l).Nodup) : (akeys (aerase l k)).Nodup :=
  List.Nodup.sublist (akeys_aerase_sublist l k) h

theorem alookup_aerase_self {α : Type} :
    ∀ (l : List (String × α)) (k : String), (akeys l).Nodup → alookup (aerase l k) k = none := by
  intro l k hnd
  induction l with
  | nil => rfl
  | cons p rest ih =>
    rw [akeys, List.map_cons, List.nodup_cons] at hnd
    by_cases h : p.1 = k
    · rw [aerase, if_pos h]
      exact h ▸ alookup_eq_none_of_not_mem rest p.1 hnd.1
    · rw [aerase, if_neg h, alookup, if_neg h]
      exact ih hnd.2

theorem alookup_aerase_ne {α : Type} :
    ∀ (l : List (String × α)) (k' k : String), k' ≠ k →
      alookup (aerase l k') k = alookup l k := by
  intro l k' k hne
  induction l with
  | nil => rfl
  | cons p rest ih =>
    by_cases h : p.1 = k'
    · rw [aerase, if_pos h, alookup, if_neg (fun e : p.1 = k => hne (h ▸ e ▸ rfl))]
    · rw [aerase, if_neg h, alookup, alookup]
      by_cases h2 : p.1 = k
      · rw [if_pos h2, if_pos h2]
      · rw [if_neg h2, if_neg h2]
        exact ih

theorem mem_akeys_ainsert {α : Type} :
    ∀ (l : List (String × α)) (k k' : String) (v : α),
      k' ∈ akeys (ainsert l k v) ↔ k' ∈ akeys l ∨ k' = k := by
  intro l k k' v
  induction l with
  | nil => simp [ainsert, akeys]
  | cons p rest ih =>
    by_cases hp : p.1 = k
    · rw [ainsert, if_pos hp, akeys, List.map_cons, akeys, List.map_cons]
      subst hp
      simp only [List.mem_cons]
      tauto
    · rw [ainsert, if_neg hp, akeys, List.map_cons, akeys, List.map_cons]
      simp only [List.mem_cons]
      rw [akeys] at ih
      tauto

theorem akeys_ainsert_nodup {α : Type} :
    ∀ (l : List (String × α)) (k : String) (v : α),
      (akeys l).Nodup → (akeys (ainsert l k v)).Nodup := by
  intro l k v h
  induction l with
  | nil => simp [ainsert, akeys]
  | cons p rest ih =>
    rw [akeys, List.map_cons, List.nodup_cons] at h
    by_cases hp : p.1 = k
    · rw [ainsert, if_pos hp, akeys, List.map_cons, List.nodup_cons]
      exact ⟨hp ▸ h.1, h.2⟩
    · rw [ainsert, if_neg hp, akeys, List.map_cons, List.nodup_cons]
      refine ⟨?_, ih h.2⟩
      intro hm
      rcases (mem_akeys_ainsert rest k p.1 v).mp hm with h1 | h2
      · exact h.1 h1
      · exact hp h2

/-! ## Helper lemmas: the stable descending sort -/

theorem insertDesc_perm (x : RawResult) :
    ∀ l : List RawResult, (insertDesc x l).Perm (x :: l) := by
  intro l
  induction l with
  | nil => simp [insertDesc]
  | cons y ys ih =>
    rw [insertDesc]
    by_cases h : y.similarity_score ≤ x.similarity_score
    · rw [if_pos (by simpa using h)]
    · rw [if_neg (by simpa using h)]
      exact (List.Perm.cons y ih).trans (List.Perm.swap x y ys)

theorem sortDesc_perm : ∀ l : List RawResult, (sortDesc l).Perm l := by
  intro l
  induction l with
  | nil => simp [sortDesc]
  | cons x xs ih =>
    rw [sortDesc]
    exact (insertDesc_perm x (sortDesc xs)).trans (List.Perm.cons x ih)

theorem insertDesc_sorted (x : RawResult) :
    ∀ l : List RawResult, l.Pairwise scoreGE → (insertDesc x l).Pairwise scoreGE := by
  intro l
  induction l with
  | nil => intro _; simp [insertDesc, scoreGE]
  | cons y ys ih =>
    intro hp
    rcases List.pairwise_cons.mp hp with ⟨hy, hys⟩
    rw [insertDesc]
    by_cases h : y.similarity_score ≤ x.similarity_score
    · rw [if_pos (by simpa using h)]
      refine List.pairwise_cons.mpr ⟨?_, hp⟩
      intro z hz
      rcases List.mem_cons.mp hz with rfl | hz2
      · exact h
      · exact le_trans (hy z hz2) h
    · rw [if_neg (by simpa using h)]
      refine List.pairwise_cons.mpr ⟨?_, ih hys⟩
      intro z hz
      have hz3 : z ∈ x :: ys := (insertDesc_perm x ys).mem_iff.mp hz
      rcases List.mem_cons.mp hz3 with rfl | hz4
      · exact le_of_lt (lt_of_not_le h)
      · exact hy z hz4

theorem sortDesc_sorted : ∀ l : List RawResult, (sortDesc l).Pairwise scoreGE := by
  intro l
  induction l with
  | nil => simp [sortDesc]
  | cons x xs ih => exact insertDesc_sorted x (sortDesc xs) ih

/-- Lists of at most one element are vacuously pairwise related. -/
theorem pairwise_of_length_le_one {α : Type} {R : α → α → Prop} :
    ∀ l : List α, l.length ≤ 1 → l.Pairwise R := by
  intro l h
  match l with
  | [] => exact List.Pairwise.nil
  | [x] => exact List.pairwise_singleton R x
  | x :: y :: rest => simp at h

/-! ## Helper lemmas: deduplication -/

theorem dedupGo_append :
    ∀ (rs kept : List RawResult), ∃ t, dedupGo kept rs = kept ++ t ∧ t.Sublist rs := by
  intro rs
  induction rs with
  | nil => intro kept; exact ⟨[], by simp [dedupGo]⟩
  | cons r rs ih =>
    intro kept
    rw [dedupGo]
    by_cases h : isDuplicateOf r kept
    · rw [if_pos h]
      rcases ih kept with ⟨t, ht, hs⟩
      exact ⟨t, ht, hs.cons r⟩
    · rw [if_neg h]
      rcases ih (kept ++ [r]) with ⟨t, ht, hs⟩
      refine ⟨r :: t, ?_, hs.cons₂ r⟩
      rw [ht, List.append_assoc]
      rfl

theorem mem_dedupGo_of_mem_kept :
    ∀ (rs kept : List RawResult) (e : RawResult), e ∈ kept → e ∈ dedupGo kept rs := by
  intro rs kept e he
  rcases dedupGo_append rs kept with ⟨t, ht, _⟩
  rw [ht]
  exact List.mem_append_left t he

theorem dedupGo_sublist :
    ∀ (rs kept : List RawResult), (dedupGo kept rs).Sublist (kept ++ rs) := by
  intro rs
  induction rs with
  | nil => intro kept; simp [dedupGo]
  | cons r rs ih =>
    intro kept
    rw [dedupGo]
    by_cases h : isDuplicateOf r kept
    · rw [if_pos h]
      refine (ih kept).trans ?_
      refine List.append_sublist_append_left kept |>.mpr ?_
      exact List.sublist_cons_self r rs
    · rw [if_neg h]
      refine (ih (kept ++ [r])).trans ?_
      rw [List.append_assoc]
      exact List.Sublist.refl _

theorem dedupGo_pairwise :
    ∀ (rs kept : List RawResult),
      kept.Pairwise notNearDup → (dedupGo kept rs).Pairwise notNearDup := by
  intro rs
  induction rs with
  | nil => intro kept h; exact h
  | cons r rs ih =>
    intro kept h
    rw [dedupGo]
    by_cases hd : isDuplicateOf r kept
    · rw [if_pos hd]; exact ih kept h
    · rw [if_neg hd]
      refine ih (kept ++ [r]) ?_
      rw [List.pairwise_append]
      refine ⟨h, List.pairwise_singleton _ r, ?_⟩
      intro e he x hx
      have hxr : x = r := List.mem_singleton.mp hx
      subst hxr
      have : ¬ (calculateContentSimilarity x.content e.content > Rat.divInt 9 10) := by
        intro hgt
        exact hd (List.any_eq_true.mpr ⟨e, he, by simpa using hgt⟩)
      exact not_lt.mp this

theorem dedupGo_complete :
    ∀ (rs kept : List RawResult), ∀ x ∈ rs,
      x ∈ dedupGo kept rs ∨
      ∃ e ∈ dedupGo kept rs,
        calculateContentSimilarity x.content e.content > Rat.divInt 9 10 := by
  intro rs
  induction rs with
  | nil => intro kept x hx; simp at hx
  | cons r rs ih =>
    intro kept x hx
    rw [dedupGo]
    by_cases hd : isDuplicateOf r kept
    · rw [if_pos hd]
      rcases List.mem_cons.mp hx with rfl | hx2
      · rcases List.any_eq_true.mp hd with ⟨e, he, hsim⟩
        exact Or.inr ⟨e, mem_dedupGo_of_mem_kept rs kept e he, by simpa using hsim⟩
      · exact ih kept x hx2
    · rw [if_neg hd]
      rcases List.mem_cons.mp hx with rfl | hx2
      · exact Or.inl (mem_dedupGo_of_mem_kept rs (kept ++ [x]) x
          (List.mem_append_right kept (List.mem_singleton_self x)))
      · exact ih (kept ++ [r]) x hx2

theorem deduplicateResults_sublist (results : List RawResult) :
    (deduplicateResults results).Sublist results := by
  rw [deduplicateResults]
  by_cases h : results.length ≤ 1
  · rw [if_pos h]
  · rw [if_neg h]
    simpa using dedupGo_sublist results []

theorem deduplicateResults_pairwise (results : List RawResult) :
    (deduplicateResults results).Pairwise notNearDup := by
  rw [deduplicateResults]
  by_cases h : results.length ≤ 1
  · rw [if_pos h]
    exact pairwise_of_length_le_one results h
  · rw [if_neg h]
    exact dedupGo_pairwise results [] List.Pairwise.nil

theorem deduplicateResults_complete (results : List RawResult) :
    ∀ x ∈ results, x ∈ deduplicateResults results ∨
      ∃ e ∈ deduplicateResults results,
        calculateContentSimilarity x.content e.content > Rat.divInt 9 10 := by
  intro x hx
  rw [deduplicateResults]
  by_cases h : results.length ≤ 1
  · rw [if_pos h]; exact Or.inl hx
  · rw [if_neg h]
    exact dedupGo_complete results [] x hx

/-- Sortedness survives deduplication (a sublist of a sorted list). -/
theorem deduplicateResults_sorted (results : List RawResult)
    (h : results.Pairwise scoreGE) : (deduplicateResults results).Pairwise scoreGE :=
  List.Pairwise.sublist (deduplicateResults_sublist results) h

/-! ## Helper lemmas: grouping by document -/

theorem keyIs_eq_true {k : String} {r : RawResult} : keyIs k r = true ↔ docKey r = k := by
  simp [keyIs]

theorem filter_keyIs_singleton_eq {k : String} {r : RawResult} (h : docKey r = k) :
    List.filter (keyIs k) [r] = [r] := by
  simp [keyIs, h]

theorem filter_keyIs_singleton_ne {k : String} {r : RawResult} (h : docKey r ≠ k) :
    List.filter (keyIs k) [r] = [] := by
  simp [keyIs, h]

theorem akeys_ginsert :
    ∀ (acc : List (String × List RawResult)) (k : String) (r : RawResult),
      akeys (ginsert acc k r) =
        if k ∈ akeys acc then akeys acc else akeys acc ++ [k] := by
  intro acc k r
  induction acc with
  | nil => simp [ginsert, akeys]
  | cons p rest ih =>
    simp only [akeys, List.map_cons]
    simp only [akeys] at ih
    by_cases hp : p.1 = k
    · rw [ginsert, if_pos hp, List.map_cons]
      rw [if_pos (List.mem_cons.mpr (Or.inl hp.symm))]
    · rw [ginsert, if_neg hp, List.map_cons, ih]
      by_cases hk : k ∈ List.map (fun p => p.1) rest
      · rw [if_pos hk, if_pos (List.mem_cons.mpr (Or.inr hk))]
      · have hnotin : k ∉ p.1 :: List.map (fun p => p.1) rest := by
          intro hmem
          rcases List.mem_cons.mp hmem with e | hm
          · exact hp e.symm
          · exact hk hm
        rw [if_neg hk, if_neg hnotin, List.cons_append]

theorem ginsert_groups :
    ∀ (acc : List (String × List RawResult)) (processed : List RawResult)
      (k : String) (r : RawResult),
      (∀ p ∈ acc, p.2 = processed.filter (keyIs p.1)) →
      (akeys acc).Nodup →
      (k ∈ akeys acc ∨ processed.filter (keyIs k) = []) →
      docKey r = k →
      ∀ p ∈ ginsert acc k r, p.2 = (processed ++ [r]).filter (keyIs p.1) := by
  intro acc
  induction acc with
  | nil =>
    intro processed k r _ _ hk hr p hp
    rw [ginsert] at hp
    have hpkg : p = (k, [r]) := List.mem_singleton.mp hp
    have hempty : processed.filter (keyIs k) = [] := by
      rcases hk with h1 | h2
      · simp [akeys] at h1
      · exact h2
    rw [hpkg, List.filter_append]
    show [r] = processed.filter (keyIs k) ++ List.filter (keyIs k) [r]
    rw [hempty, filter_keyIs_singleton_eq hr, List.nil_append]
  | cons q rest ih =>
    intro processed k r hacc hnd hk hr p hp
    rw [akeys, List.map_cons, List.nodup_cons] at hnd
    by_cases hq : q.1 = k
    · rw [ginsert, if_pos hq] at hp
      rcases List.mem_cons.mp hp with hpe | hp2
      · have hq2 := hacc q (List.mem_cons_self q rest)
        rw [hpe, List.filter_append]
        show q.2 ++ [r] = processed.filter (keyIs q.1) ++ List.filter (keyIs q.1) [r]
        rw [← hq2, filter_keyIs_singleton_eq (by rw [hr, ← hq])]
      · have hp3 := hacc p (List.mem_cons_of_mem q hp2)
        have hpk : p.1 ≠ k := by
          intro e
          refine hnd.1 ?_
          rw [hq]
          rw [← e]
          exact List.mem_map.mpr ⟨p, hp2, rfl⟩
        rw [List.filter_append, ← hp3,
          filter_keyIs_singleton_ne (fun e => hpk (e.symm.trans hr)), List.append_nil]
    · rw [ginsert, if_neg hq] at hp
      rcases List.mem_cons.mp hp with hpe | hp2
      · have hq2 := hacc q (List.mem_cons_self q rest)
        rw [hpe, List.filter_append, ← hq2,
          filter_keyIs_singleton_ne (fun e => hq ((e.symm.trans hr).symm ▸ rfl)), List.append_nil]
      · refine ih processed k r (fun p2 hp2m => hacc p2 (List.mem_cons_of_mem q hp2m)) hnd.2 ?_ hr p hp2
        rcases hk with h1 | h2
        · rw [akeys, List.map_cons] at h1
          rcases List.mem_cons.mp h1 with e | hm
          · exact absurd e.symm hq
          · exact Or.inl hm
        · exact Or.inr h2

theorem ginsert_cover :
    ∀ (acc : List (String × List RawResult)) (processed : List RawResult)
      (k : String) (r : RawResult),
      (∀ x ∈ processed, docKey x ∈ akeys acc) →
      docKey r = k →
      ∀ x ∈ processed ++ [r], docKey x ∈ akeys (ginsert acc k r) := by
  intro acc processed k r hcov hr x hx
  rw [akeys_ginsert]
  rcases List.mem_append.mp hx with hx1 | hx2
  · by_cases hk : k ∈ akeys acc
    · rw [if_pos hk]; exact hcov x hx1
    · rw [if_neg hk]; exact List.mem_append_left _ (hcov x hx1)
  · have hxr : x = r := List.mem_singleton.mp hx2
    by_cases hk : k ∈ akeys acc
    · rw [if_pos hk, hxr, hr]; exact hk
    · rw [if_neg hk, hxr, hr]
      exact List.mem_append_right _ (List.mem_singleton_self k)

theorem ginsert_nodup :
    ∀ (acc : List (String × List RawResult)) (k : String) (r : RawResult),
      (akeys acc).Nodup → (akeys (ginsert acc k r)).Nodup := by
  intro acc k r h
  rw [akeys_ginsert]
  by_cases hk : k ∈ akeys acc
  · rw [if_pos hk]; exact h
  · rw [if_neg hk]
    refine List.Nodup.append h (List.nodup_singleton k) ?_
    intro a ha hb
    have := List.mem_singleton.mp hb
    rw [this] at ha
    exact hk ha

theorem groupsOfAux_inv :
    ∀ (rest processed : List RawResult) (acc : List (String × List RawResult)),
      GroupsInv processed acc →
      GroupsInv (processed ++ rest) (groupsOfAux acc rest) := by
  intro rest
  induction rest with
  | nil => intro processed acc h; simpa [groupsOfAux] using h
  | cons r rs ih =>
    intro processed acc h
    rcases h with ⟨hgroups, hnd, hcov⟩
    rw [groupsOfAux]
    have hk : docKey r ∈ akeys acc ∨ processed.filter (keyIs (docKey r)) = [] := by
      by_cases hf : processed.filter (keyIs (docKey r)) = []
      · exact Or.inr hf
      · rcases List.exists_mem_of_ne_nil _ hf with ⟨x, hx⟩
        rcases List.mem_filter.mp hx with ⟨hxp, hxk⟩
        have hxd : docKey x = docKey r := keyIs_eq_true.mp hxk
        exact Or.inl (hxd ▸ hcov x hxp)
    have step : GroupsInv (processed ++ [r]) (ginsert acc (docKey r) r) :=
      ⟨ginsert_groups acc processed (docKey r) r hgroups hnd hk rfl,
       ginsert_nodup acc (docKey r) r hnd,
       ginsert_cover acc processed (docKey r) r hcov rfl⟩
    have := ih (processed ++ [r]) (ginsert acc (docKey r) r) step
    simpa [List.append_assoc] using this

theorem groupsOf_spec (rs : List RawResult) : GroupsInv rs (groupsOf rs) := by
  have h0 : GroupsInv [] ([] : List (String × List RawResult)) := by
    refine ⟨by simp, by simp [akeys], by simp⟩
  have := groupsOfAux_inv rs [] [] h0
  simpa [groupsOf] using this

theorem flatMap_take2_filter_not_mem :
    ∀ (gs : List (String × List RawResult)) (k : String),
      (∀ p ∈ gs, ∀ x ∈ p.2, docKey x = p.1) →
      k ∉ akeys gs →
      (gs.flatMap (fun p => p.2.take 2)).filter (keyIs k) = [] := by
  intro gs k
  induction gs with
  | nil => intro _ _; simp
  | cons p rest ih =>
    intro hall hk
    have hpk : p.1 ≠ k := by
      intro e
      exact hk (by rw [akeys, List.map_cons, ← e]; exact List.mem_cons_self _ _)
    rw [List.flatMap_cons, List.filter_append]
    have h1 : (p.2.take 2).filter (keyIs k) = [] := by
      rw [List.filter_eq_nil_iff]
      intro a ha hka
      have had := hall p (List.mem_cons_self p rest) a (List.mem_of_mem_take ha)
      exact hpk (had.symm.trans (keyIs_eq_true.mp hka))
    rw [h1, List.nil_append]
    refine ih (fun q hq => hall q (List.mem_cons_of_mem p hq)) ?_
    intro hm
    exact hk (by rw [akeys, List.map_cons]; exact List.mem_cons_of_mem _ hm)

theorem flatMap_take2_filter_mem :
    ∀ (gs : List (String × List RawResult)) (k : String) (g : List RawResult),
      (∀ p ∈ gs, ∀ x ∈ p.2, docKey x = p.1) →
      (akeys gs).Nodup →
      (k, g) ∈ gs →
      (gs.flatMap (fun p => p.2.take 2)).filter (keyIs k) = g.take 2 := by
  intro gs k g
  induction gs with
  | nil => intro _ _ h; simp at h
  | cons p rest ih =>
    intro hall hnd hmem
    rw [akeys, List.map_cons, List.nodup_cons] at hnd
    rw [List.flatMap_cons, List.filter_append]
    rcases List.mem_cons.mp hmem with e | hmem2
    · have hp1 : p.1 = k := by rw [← e]
      have hp2 : p.2 = g := by rw [← e]
      have h1 : (p.2.take 2).filter (keyIs k) = p.2.take 2 := by
        rw [List.filter_eq_self]
        intro a ha
        have had := hall p (List.mem_cons_self p rest) a (List.mem_of_mem_take ha)
        exact keyIs_eq_true.mpr (had.trans hp1)
      have h2 : (rest.flatMap (fun p => p.2.take 2)).filter (keyIs k) = [] := by
        refine flatMap_take2_filter_not_mem rest k
          (fun q hq => hall q (List.mem_cons_of_mem p hq)) ?_
        exact hp1 ▸ hnd.1
      rw [h1, h2, List.append_nil, hp2]
    · have hpk : p.1 ≠ k := by
        intro e
        refine hnd.1 ?_
        rw [e]
        exact List.mem_map.mpr ⟨(k, g), hmem2, rfl⟩
      have h1 : (p.2.take 2).filter (keyIs k) = [] := by
        rw [List.filter_eq_nil_iff]
        intro a ha hka
        have had := hall p (List.mem_cons_self p rest) a (List.mem_of_mem_take ha)
        exact hpk (had.symm.trans (keyIs_eq_true.mp hka))
      rw [h1, List.nil_append]
      exact ih (fun q hq => hall q (List.mem_cons_of_mem p hq)) hnd.2 hmem2

theorem flatMap_take2_filter (rs : List RawResult) (k : String) :
    ((groupsOf rs).flatMap (fun p => p.2.take 2)).filter (keyIs k) =
      (rs.filter (keyIs k)).take 2 := by
  rcases groupsOf_spec rs with ⟨hgroups, hnd, hcov⟩
  have hall : ∀ p ∈ groupsOf rs, ∀ x ∈ p.2, docKey x = p.1 := by
    intro p hp x hx
    rw [hgroups p hp] at hx
    exact keyIs_eq_true.mp (List.mem_filter.mp hx).2
  by_cases hk : k ∈ akeys (groupsOf rs)
  · rcases List.mem_map.mp hk with ⟨p, hp, hp1⟩
    have hpeta : p = (k, p.2) := by
      rw [← hp1]
    have hpair : (k, p.2) ∈ groupsOf rs := hpeta ▸ hp
    rw [flatMap_take2_filter_mem (groupsOf rs) k p.2 hall hnd hpair]
    rw [hgroups p hp, hp1]
  · rw [flatMap_take2_filter_not_mem (groupsOf rs) k hall hk]
    have hnil : rs.filter (keyIs k) = [] := by
      rw [List.filter_eq_nil_iff]
      intro a ha hka
      exact hk ((keyIs_eq_true.mp hka) ▸ hcov a ha)
    rw [hnil]
    rfl

theorem groupResultsByDocument_filter_perm (rs : List RawResult) (k : String) :
    ((groupResultsByDocument rs).filter (keyIs k)).Perm ((rs.filter (keyIs k)).take 2) := by
  rw [groupResultsByDocument]
  by_cases h : rs.length ≤ 1
  · rw [if_pos h]
    have hle : (rs.filter (keyIs k)).length ≤ 2 :=
      le_trans (List.length_filter_le _ _) (le_trans h (by norm_num))
    rw [List.take_of_length_le hle]
  · rw [if_neg h]
    refine List.Perm.trans (List.Perm.filter _ (sortDesc_perm _)) ?_
    rw [flatMap_take2_filter]

theorem groupResultsByDocument_sorted (rs : List RawResult)
    (h : rs.Pairwise scoreGE) : (groupResultsByDocument rs).Pairwise scoreGE := by
  rw [groupResultsByDocument]
  by_cases hl : rs.length ≤ 1
  · rw [if_pos hl]; exact h
  · rw [if_neg hl]; exact sortDesc_sorted _

theorem sorted_take_drop_dominance {l : List RawResult} (h : l.Pairwise scoreGE) (n : Nat) :
    ∀ a ∈ l.take n, ∀ b ∈ l.drop n, b.similarity_score ≤ a.similarity_score := by
  intro a ha b hb
  have h2 : (l.take n ++ l.drop n).Pairwise scoreGE := by
    rw [List.take_append_drop]
    exact h
  exact (List.pairwise_append.mp h2).2.2 a ha b hb

/-! ## Claim theorems C3 and C4 -/

/-- C3 (amended).  Deduplication keeps an order-preserving selection of the
input in which no kept result is a near duplicate (Jaccard similarity
strictly above 0.9, in the comparison order of the code) of an earlier kept
result, and every input result is either kept or a near duplicate of some
kept result.  In particular, of two results with identical content that
contains at least one word exactly one is kept, and two results whose word
sets share only half of their words are both kept.  (The original claim is
false for identical contents with an empty word set, see the
counterexample.) -/
theorem claim_C3 :
    (∀ results : List RawResult,
      (deduplicateResults results).Sublist results ∧
      (deduplicateResults results).Pairwise notNearDup ∧
      (∀ r ∈ results, r ∈ deduplicateResults results ∨
        ∃ e ∈ deduplicateResults results,
          calculateContentSimilarity r.content e.content > Rat.divInt 9 10)) ∧
    deduplicateResults [sampleIdenticalA, sampleIdenticalB] = [sampleIdenticalA] ∧
    deduplicateResults [sampleHalfA, sampleHalfB] = [sampleHalfA, sampleHalfB] := by
  refine ⟨?_, by decide, by decide⟩
  intro results
  exact ⟨deduplicateResults_sublist results, deduplicateResults_pairwise results,
    deduplicateResults_complete results⟩

/-- C3 witness: the general part applied to the identical-content pair,
discharging the membership hypothesis at a concrete input. -/
theorem claim_C3_witness :
    sampleIdenticalB ∈ deduplicateResults [sampleIdenticalA, sampleIdenticalB] ∨
      ∃ e ∈ deduplicateResults [sampleIdenticalA, sampleIdenticalB],
        calculateContentSimilarity sampleIdenticalB.content e.content > Rat.divInt 9 10 :=
  (claim_C3.1 [sampleIdenticalA, sampleIdenticalB]).2.2 sampleIdenticalB (by decide)

/-- C3 counterexample: two results with identical (empty) content are BOTH
kept, because the Jaccard similarity of two empty word sets is defined as 0,
refuting the claim that identical contents always leave exactly one. -/
theorem claim_C3_cex :
    sampleEmptyA.content = sampleEmptyB.content ∧
    deduplicateResults [sampleEmptyA, sampleEmptyB] = [sampleEmptyA, sampleEmptyB] := by
  exact ⟨by decide, by decide⟩

/-- C4.  For any input to the grouping step, each document key keeps at most
its first two results (as a permutation of the filtered prefix); on the
pipeline input (sorted then deduplicated) the output is sorted descending by
score and the two kept results of each key dominate the dropped ones; and
the concrete five-results instance keeps exactly the scores 0.9 and 0.8. -/
theorem claim_C4 :
    (∀ (rs : List RawResult) (k : String),
      ((groupResultsByDocument rs).filter (keyIs k)).Perm
        ((rs.filter (keyIs k)).take 2)) ∧
    (∀ l : List RawResult,
      (groupResultsByDocument (deduplicateResults (sortDesc l))).Pairwise scoreGE) ∧
    (∀ (l : List RawResult) (k : String) (a b : RawResult),
      a ∈ ((deduplicateResults (sortDesc l)).filter (keyIs k)).take 2 →
      b ∈ ((deduplicateResults (sortDesc l)).filter (keyIs k)).drop 2 →
      b.similarity_score ≤ a.similarity_score) ∧
    (groupResultsByDocument fiveSameDoc).map (fun r => r.similarity_score) =
      [Rat.divInt 9 10, Rat.divInt 4 5] := by
  refine ⟨groupResultsByDocument_filter_perm, ?_, ?_, by decide⟩
  · intro l
    exact groupResultsByDocument_sorted _ (deduplicateResults_sorted _ (sortDesc_sorted l))
  · intro l k a b ha hb
    have hsorted : ((deduplicateResults (sortDesc l)).filter (keyIs k)).Pairwise scoreGE :=
      List.Pairwise.filter _ (deduplicateResults_sorted _ (sortDesc_sorted l))
    exact sorted_take_drop_dominance hsorted 2 a ha b hb

/-- C4 witness: the dominance part applied at the concrete five-result
input, discharging both membership hypotheses by evaluation. -/
theorem claim_C4_witness :
    (fiveSameDoc.get ⟨4, by decide⟩).similarity_score ≤
      (fiveSameDoc.get ⟨0, by decide⟩).similarity_score :=
  claim_C4.2.2.1 fiveSameDoc "doc1" _ _ (by decide) (by decide)

/-! ## Claim C5: ranks and citations -/

theorem enum_map_rank (l : List RawResult) (q : String) :
    (l.enum.map (fun p => curateOne q p.1 p.2)).map (fun r => r.rank) =
      List.range' 1 l.length := by
  rw [List.map_map]
  have h1 : ((fun r : CuratedResult => r.rank) ∘ (fun p : Nat × RawResult => curateOne q p.1 p.2)) =
      ((fun i => i + 1) ∘ Prod.fst) := rfl
  rw [h1, ← List.map_map, List.enum_map_fst, List.range'_eq_map_range]
  exact List.map_congr_left (fun a _ => Nat.add_comm a 1)

theorem enum_map_pairwise (l : List RawResult) (q : String) (h : l.Pairwise scoreGE) :
    (l.enum.map (fun p => curateOne q p.1 p.2)).Pairwise
      (fun a b => b.score ≤ a.score) := by
  rw [List.pairwise_map]
  have h2 : List.Pairwise (fun p q2 : Nat × RawResult => scoreGE p.2 q2.2) l.enum := by
    have h3 := List.pairwise_map (l := l.enum) (f := fun p : Nat × RawResult => p.2)
      (R := scoreGE)
    rw [List.enum_map_snd] at h3
    exact h3.mp h
  exact h2

theorem enum_map_citation (l : List RawResult) (q : String) :
    ((l.enum.map (fun p => curateOne q p.1 p.2)).map (fun r => r.citation) =
      (l.enum.map (fun p => curateOne q p.1 p.2)).map (fun r =>
        "[" ++ toString r.rank ++ "] Source: " ++
          jsStrOr r.metadata.source "Unknown Document")) ∧
    ((l.enum.map (fun p => curateOne q p.1 p.2)).map (fun r => r.source.source_file) =
      (l.enum.map (fun p => curateOne q p.1 p.2)).map (fun r =>
        jsStrOr r.metadata.source "unknown")) := by
  constructor <;>
  · apply List.map_congr_left
    intro r hr
    rcases List.mem_map.mp hr with ⟨p, hp, hre⟩
    rw [← hre]
    cases hm : p.2.metadata with
    | none => simp [curateOne, emptyMetadata, hm]
    | some m => simp [curateOne, hm]

/-- C5 (amended).  The curated output of formatResultsWithCitations has rank
fields that are exactly the contiguous integers 1..N assigned along a
sequence sorted descending by score, the citation string of every element is
exactly its bracketed rank followed by its metadata source when truthy and
the literal Unknown Document otherwise, and the source_file field is that
same source with the default unknown.  (The tie-breaking clause of the
original claim is dropped: equal-score results of distinct documents can be
reordered by the grouping step, see the counterexample.) -/
theorem claim_C5 :
    ∀ (results : List RawResult) (originalQuery : String),
      ((formatResultsWithCitations results originalQuery).map (fun r => r.rank) =
        List.range' 1 (formatResultsWithCitations results originalQuery).length) ∧
      (formatResultsWithCitations results originalQuery).Pairwise
        (fun a b => b.score ≤ a.score) ∧
      ((formatResultsWithCitations results originalQuery).map (fun r => r.citation) =
        (formatResultsWithCitations results originalQuery).map (fun r =>
          "[" ++ toString r.rank ++ "] Source: " ++
            jsStrOr r.metadata.source "Unknown Document")) ∧
      ((formatResultsWithCitations results originalQuery).map (fun r => r.source.source_file) =
        (formatResultsWithCitations results originalQuery).map (fun r =>
          jsStrOr r.metadata.source "unknown")) := by
  intro results q
  rw [formatResultsWithCitations]
  by_cases h : results.length = 0
  · rw [if_pos h]
    exact ⟨rfl, List.Pairwise.nil, rfl, rfl⟩
  · rw [if_neg h]
    have hsorted : (groupResultsByDocument (deduplicateResults (sortDesc results))).Pairwise scoreGE :=
      groupResultsByDocument_sorted _ (deduplicateResults_sorted _ (sortDesc_sorted results))
    refine ⟨?_, enum_map_pairwise _ q hsorted, (enum_map_citation _ q).1, (enum_map_citation _ q).2⟩
    rw [enum_map_rank, List.length_map, List.enum_length]

/-- C5 counterexample: with input cexA1 (doc A, 0.9), cexB1 (doc B, 0.5),
cexA2 (doc A, 0.5), the results cexB1 and cexA2 have equal scores and cexB1
comes first in the input, yet the curated ranks are a1 before a2 before b1:
document grouping put the two doc-A chunks together, so the equal-score tie
is NOT broken by original order. -/
theorem claim_C5_cex :
    cexB1.similarity_score = cexA2.similarity_score ∧
    (formatResultsWithCitations [cexA1, cexB1, cexA2] "query").map (fun r => (r.id, r.rank)) =
      [("a1", 1), ("a2", 2), ("b1", 3)] := by
  exact ⟨by decide, by decide⟩

/-! ## Claims C7 to C10 -/

/-- C7 (amended).  The cache TTL is 300 seconds when the JS whitespace split
of the query has more than 10 components and 600 otherwise; for queries
whose split contains no empty component (no leading or trailing whitespace)
the component count is exactly the word count, so an 11-word query gets 300
and a 5-word query gets 600.  (The original unconditional word-count claim
fails on queries with leading or trailing whitespace, see the
counterexample.) -/
theorem claim_C7 :
    (∀ query : String, "" ∉ jsSplitWs query →
      getCacheTTL query =
        if ((jsSplitWs query).filter (fun w => decide (w ≠ ""))).length > 10 then 300
        else 600) ∧
    getCacheTTL elevenWordQuery = 300 ∧ getCacheTTL fiveWordQuery = 600 := by
  refine ⟨?_, by decide, by decide⟩
  intro q h
  have hf : (jsSplitWs q).filter (fun w => decide (w ≠ "")) = jsSplitWs q := by
    rw [List.filter_eq_self]
    intro a ha
    simp only [decide_eq_true_eq]
    intro e
    rw [e] at ha
    exact h ha
  rw [hf]
  rfl

/-- C7 witness: the amended statement applied to a two-word query with no
outer whitespace. -/
theorem claim_C7_witness :
    getCacheTTL "alpha beta" =
      if ((jsSplitWs "alpha beta").filter (fun w => decide (w ≠ ""))).length > 10 then 300
      else 600 :=
  claim_C7.1 "alpha beta" (by decide)

/-- C7 counterexample: a query of exactly 10 whitespace-delimited words with
one leading space splits into 11 components (the leading empty token), so
the code returns TTL 300 where the claim requires 600. -/
theorem claim_C7_cex :
    getCacheTTL " a b c d e f g h i j" = 300 ∧
    ((jsSplitWs " a b c d e f g h i j").filter (fun w => decide (w ≠ ""))).length = 10 := by
  exact ⟨by decide, by decide⟩

/-- C8.  The terms of the rewritten query are the stop-word-filtered
whitespace tokens of the trimmed lowercased query unioned with the
expansions in first-seen order without exact duplicates, and the expanded
query is the terms joined by single spaces. -/
theorem claim_C8 :
    ∀ query : String,
      (rewriteQuery query).terms =
        firstSeenDedup []
          (((jsSplitWs (toLowerStr (jsTrim query))).filter
              (fun w => !(stopWords.contains w))) ++
            (rewriteQuery query).expansions) ∧
      (rewriteQuery query).terms.Nodup ∧
      (rewriteQuery query).expanded = String.intercalate " " (rewriteQuery query).terms := by
  intro query
  exact ⟨rfl, firstSeenDedup_nodup _ [], rfl⟩

/-- C9.  Reading a key straight after storing a value yields that value
exactly when the value is truthy: the read path coerces every stored falsy
payload (0, empty string, false, null, undefined, NaN) to a miss, both in
the raw map read and in getCachedResult. -/
theorem claim_C9 :
    ∀ (k : String) (v : JsValue) (ttl now : ℤ) (s : CacheSys),
      alookup (setCacheWithExpiration k v ttl now s).mem k = some v ∧
      getCache k (setCacheWithExpiration k v ttl now s) =
        (if truthy v then some v else none) ∧
      getCachedResult k (setCacheWithExpiration k v ttl now s) =
        (if truthy v then some v else none) := by
  intro k v ttl now s
  have hmem : alookup (setCacheWithExpiration k v ttl now s).mem k = some v :=
    alookup_ainsert_self _ k v
  have hget : getCache k (setCacheWithExpiration k v ttl now s) =
      (if truthy v then some v else none) := by
    rw [getCache, hmem]
  refine ⟨hmem, hget, ?_⟩
  by_cases ht : truthy v
  · simp [getCachedResult, hget, ht]
  · simp [getCachedResult, hget, ht]

/-- C10.  The query "the and or" consists solely of stop words and contains
no expansion trigger as a substring, so the rewriter produces an empty term
list; complexity analysis then divides 0 by 0 with no guard, giving NaN as
the average length, term count 0, no technical terms, and not complex. -/
theorem claim_C10 :
    ((jsSplitWs (toLowerStr (jsTrim "the and or"))).all
      (fun w => stopWords.contains w) = true) ∧
    (queryExpansions.all
      (fun p => !(includesSubstr (toLowerStr (jsTrim "the and or")) p.1)) = true) ∧
    (rewriteQuery "the and or").terms = [] ∧
    analyzeQueryComplexity (rewriteQuery "the and or").terms =
      { termCount := 0, averageLength := JsNum.nan,
        hasTechnicalTerms := false, isComplex := false } := by
  exact ⟨by decide, by decide, by decide, by decide⟩

/-! ## Claims C2 and C6 -/

theorem firstSeenDedup_nil_length_pos {α : Type} [DecidableEq α] :
    ∀ l : List α, l ≠ [] → 0 < (firstSeenDedup [] l).length := by
  intro l h
  match l with
  | [] => exact absurd rfl h
  | x :: xs =>
    rw [firstSeenDedup, if_neg (List.not_mem_nil x)]
    exact Nat.succ_pos _

/-- C2 (amended).  The quality gate on the controller formatting of a raw
result list returns: for the empty list an invalid verdict whose reason is
the literal "No relevant documents found" (and whose details mention 0
results); for a nonempty list with maximum formatted score below 0.1 an
invalid verdict naming the rendered maximum and the 0.1 threshold; and
otherwise a valid verdict whose details report the rendered maximum and the
unique-document count (which is at least 1 for any nonempty list, making
the MIN_UNIQUE_DOCUMENTS check unreachable).  (The original claim required
the empty-case reason to mention "no results", which it does not, see the
counterexample.) -/
theorem claim_C2 :
    ∀ raw : List RawResult,
      (raw = [] →
        validateRetrievalQuality raw (raw.map formatForController) =
          { isValid := false, reason := "No relevant documents found",
            details := "Retrieved 0 results from vector store" }) ∧
      (raw ≠ [] →
        jsLtQ (jsMaxL ((raw.map formatForController).map (fun r => r.score)))
            (Rat.divInt 1 10) = true →
        validateRetrievalQuality raw (raw.map formatForController) =
          { isValid := false
            reason := "Maximum similarity score (" ++
              jsToFixed3 (jsMaxL ((raw.map formatForController).map (fun r => r.score))) ++
              ") below minimum threshold (0.1)"
            details := "Best match score: " ++
              jsToFixed3 (jsMaxL ((raw.map formatForController).map (fun r => r.score))) ++
              ", threshold: 0.1" }) ∧
      (raw ≠ [] →
        jsLtQ (jsMaxL ((raw.map formatForController).map (fun r => r.score)))
            (Rat.divInt 1 10) = false →
        validateRetrievalQuality raw (raw.map formatForController) =
          { isValid := true
            reason := "All quality checks passed"
            details := "Max similarity: " ++
              jsToFixed3 (jsMaxL ((raw.map formatForController).map (fun r => r.score))) ++
              ", Unique docs: " ++
              toString (firstSeenDedup []
                ((raw.map formatForController).map uniqueDocKey)).length }) := by
  intro raw
  have hlen : raw ≠ [] → ¬ raw.length = 0 := by
    intro hne e
    exact hne (List.length_eq_zero.mp e)
  refine ⟨?_, ?_, ?_⟩
  · intro h
    subst h
    rfl
  · intro hne hlt
    rw [validateRetrievalQuality, if_neg (hlen hne), if_pos hlt]
  · intro hne hnlt
    have hpos : 0 < (firstSeenDedup []
        ((raw.map formatForController).map uniqueDocKey)).length := by
      refine firstSeenDedup_nil_length_pos _ ?_
      intro e
      exact hne (List.map_eq_nil_iff.mp (List.map_eq_nil_iff.mp e))
    have hcond : ¬ ((firstSeenDedup []
        ((raw.map formatForController).map uniqueDocKey)).length < 1) :=
      Nat.not_lt.mpr hpos
    rw [validateRetrievalQuality, if_neg (hlen hne),
      if_neg (fun e => (Bool.false_ne_true (hnlt.symm.trans e)))]
    simp only [if_neg hcond]

/-- C2 witness: the empty case and the valid case instantiated at concrete
inputs, discharging the hypotheses by evaluation. -/
theorem claim_C2_witness :
    (validateRetrievalQuality [] (([] : List RawResult).map formatForController) =
      { isValid := false, reason := "No relevant documents found",
        details := "Retrieved 0 results from vector store" }) ∧
    (validateRetrievalQuality [sampleGoodResult]
        ([sampleGoodResult].map formatForController) =
      { isValid := true
        reason := "All quality checks passed"
        details := "Max similarity: " ++
          jsToFixed3 (jsMaxL (([sampleGoodResult].map formatForController).map
            (fun r => r.score))) ++
          ", Unique docs: " ++
          toString (firstSeenDedup []
            (([sampleGoodResult].map formatForController).map uniqueDocKey)).length }) :=
  ⟨(claim_C2 []).1 rfl,
   (claim_C2 [sampleGoodResult]).2.2 (by decide) (by decide)⟩

/-- C2 counterexample: on the empty input the verdict reason is the literal
"No relevant documents found", which does not mention "no results" even
case-insensitively. -/
theorem claim_C2_cex :
    validateRetrievalQuality [] [] =
      { isValid := false, reason := "No relevant documents found",
        details := "Retrieved 0 results from vector store" } ∧
    includesSubstr (toLowerStr "No relevant documents found") "no results" = false := by
  exact ⟨by decide, by decide⟩

/-- C6.  On a cache miss both controller endpoints perform a ResultCache
write exactly when the quality verdict is valid (under the endpoint cache
key with the query-derived TTL); a gated response is returned with
retrieval_gated set but is never written; and on a cache hit the cached
response is returned with no write at all. -/
theorem claim_C6 :
    ∀ (query : String) (topK : Nat) (raw : List RawResult) (c : SearchResponse)
      (lc : LLMResponse) (backendAnswer : String),
      ((searchDocumentsStep query topK none raw).2 =
        (if (validateRetrievalQuality raw (raw.map formatForController)).isValid then
          [("search:" ++ query ++ ":" ++ toString topK, getCacheTTL query)]
        else [])) ∧
      ((searchDocumentsStep query topK none raw).1.retrieval_gated =
        !(validateRetrievalQuality raw (raw.map formatForController)).isValid) ∧
      ((searchDocumentsStep query topK (some c) raw).2 = []) ∧
      ((llmDocumentsStep query topK none backendAnswer raw).2 =
        (if (validateRetrievalQuality raw (raw.map formatForController)).isValid then
          [("llm:" ++ query ++ ":" ++ toString topK, getCacheTTL query)]
        else [])) ∧
      ((llmDocumentsStep query topK none backendAnswer raw).1.retrieval_gated =
        !(validateRetrievalQuality raw (raw.map formatForController)).isValid) ∧
      ((llmDocumentsStep query topK (some lc) backendAnswer raw).2 = []) := by
  intro query topK raw c lc backendAnswer
  exact ⟨rfl, rfl, rfl, rfl, rfl, rfl⟩

/-! ## Claim C1: timer replacement in the cache -/

theorem nodup_keys_filter_len (l : List PendingTimer) (k : String)
    (h : (l.map (fun tm => tm.key)).Nodup) :
    (l.filter (fun tm => tm.key = k)).length ≤ 1 := by
  induction l with
  | nil => simp
  | cons tm rest ih =>
    rw [List.map_cons, List.nodup_cons] at h
    by_cases hk : tm.key = k
    · rw [List.filter_cons_of_pos (by simpa using hk)]
      have hrest : rest.filter (fun tm => tm.key = k) = [] := by
        rw [List.filter_eq_nil_iff]
        intro x hx hxk
        have hxk2 : x.key = k := by simpa using hxk
        exact h.1 (List.mem_map.mpr ⟨x, hx, hxk2.trans hk.symm⟩)
      rw [hrest]
      simp
    · rw [List.filter_cons_of_neg (by simpa using hk)]
      exact ih h.2

theorem atMostOne_of_nodup (s : CacheSys)
    (h : (s.pending.map (fun tm => tm.key)).Nodup) : atMostOneTimerPerKey s :=
  fun k => nodup_keys_filter_len s.pending k h

theorem clearExpired_eq_none (k : String) (s : CacheSys)
    (h : alookup s.timeouts k = none) : clearExpired k s = s := by
  unfold clearExpired
  rw [h]

theorem clearExpired_eq_some (k : String) (s : CacheSys) (tid : Nat)
    (h : alookup s.timeouts k = some tid) :
    clearExpired k s =
      { s with
        pending := s.pending.filter (fun tm => !(tm.tid = tid : Bool))
        timeouts := aerase s.timeouts k } := by
  unfold clearExpired
  rw [h]

theorem clearExpired_spec (k : String) (s : CacheSys) (hinv : CacheInv s) :
    CacheInv (clearExpired k s) ∧
    (∀ tm ∈ (clearExpired k s).pending, tm.key ≠ k) ∧
    alookup (clearExpired k s).timeouts k = none ∧
    (clearExpired k s).mem = s.mem ∧
    (clearExpired k s).nextId = s.nextId := by
  obtain ⟨h1, h2, h3, h4, h5, h6, h7⟩ := hinv
  cases halk : alookup s.timeouts k with
  | none =>
    rw [clearExpired_eq_none k s halk]
    refine ⟨⟨h1, h2, h3, h4, h5, h6, h7⟩, ?_, halk, rfl, rfl⟩
    intro tm hm hk
    have := h5 tm hm
    rw [hk, halk] at this
    exact Option.noConfusion this
  | some tid =>
    rw [clearExpired_eq_some k s tid halk]
    have hmemf : ∀ tm : PendingTimer,
        tm ∈ s.pending.filter (fun tm => !(tm.tid = tid : Bool)) →
        tm ∈ s.pending ∧ tm.tid ≠ tid := by
      intro tm hm
      rcases List.mem_filter.mp hm with ⟨hp, hb⟩
      refine ⟨hp, ?_⟩
      intro e
      rw [e] at hb
      simp at hb
    have hnokey : ∀ tm ∈ s.pending.filter (fun tm => !(tm.tid = tid : Bool)), tm.key ≠ k := by
      intro tm hm hk
      rcases hmemf tm hm with ⟨hp, hne⟩
      have := h5 tm hp
      rw [hk, halk] at this
      exact hne (Option.some.inj this).symm
    have hsub : (s.pending.filter (fun tm => !(tm.tid = tid : Bool))).Sublist s.pending :=
      List.filter_sublist s.pending
    refine ⟨⟨h1, akeys_aerase_nodup s.timeouts k h2,
      List.Nodup.sublist (hsub.map (fun tm => tm.key)) h3,
      List.Nodup.sublist (hsub.map (fun tm => tm.tid)) h4, ?_, ?_, ?_⟩,
      hnokey, alookup_aerase_self s.timeouts k h2, rfl, rfl⟩
    · intro tm hm
      rcases hmemf tm hm with ⟨hp, _⟩
      rw [alookup_aerase_ne s.timeouts k tm.key (fun e => hnokey tm hm e.symm)]
      exact h5 tm hp
    · intro k' tid' hlk
      have hk'k : k ≠ k' := by
        intro e
        rw [← e, alookup_aerase_self s.timeouts k h2] at hlk
        exact Option.noConfusion hlk
      rw [alookup_aerase_ne s.timeouts k k' hk'k] at hlk
      rcases h6 k' tid' hlk with ⟨tm, hp, hkey, htid⟩
      refine ⟨tm, ?_, hkey, htid⟩
      rw [List.mem_filter]
      refine ⟨hp, ?_⟩
      have htmne : tm.tid ≠ tid := by
        intro e
        rcases h6 k tid halk with ⟨tm2, hp2, hkey2, htid2⟩
        have : tm = tm2 :=
          List.inj_on_of_nodup_map h4 hp hp2 (by rw [e, htid2])
        rw [this] at hkey
        exact hk'k (hkey2 ▸ hkey ▸ rfl)
      simpa using htmne
    · intro tm hm
      exact h7 tm (hmemf tm hm).1

theorem setCache_inv (k : String) (v : JsValue) (ttl now : ℤ) (s : CacheSys)
    (hinv : CacheInv s) : CacheInv (setCacheWithExpiration k v ttl now s) := by
  obtain ⟨⟨h1, h2, h3, h4, h5, h6, h7⟩, hnok, hlk, _, _⟩ := clearExpired_spec k s hinv
  unfold setCacheWithExpiration
  refine ⟨akeys_ainsert_nodup _ k v h1, akeys_ainsert_nodup _ k _ h2, ?_, ?_, ?_, ?_, ?_⟩
  · rw [List.map_append]
    refine List.Nodup.append h3 (List.nodup_singleton k) ?_
    intro a ha hb
    rcases List.mem_map.mp ha with ⟨tm, htm, rfl⟩
    have := List.mem_singleton.mp hb
    exact hnok tm htm this
  · rw [List.map_append]
    refine List.Nodup.append h4 (List.nodup_singleton _) ?_
    intro a ha hb
    rcases List.mem_map.mp ha with ⟨tm, htm, rfl⟩
    have hb2 := List.mem_singleton.mp hb
    exact Nat.ne_of_lt (h7 tm htm) hb2
  · intro tm hm
    rcases List.mem_append.mp hm with hl | hr
    · rw [alookup_ainsert_ne _ k tm.key _ (fun e => hnok tm hl e.symm)]
      exact h5 tm hl
    · have := List.mem_singleton.mp hr
      rw [this]
      exact alookup_ainsert_self _ k _
  · intro k' tid' hlkk
    by_cases he : k = k'
    · rw [← he, alookup_ainsert_self] at hlkk
      refine ⟨{ tid := (clearExpired k s).nextId, key := k, fireAt := now + ttl },
        List.mem_append_right _ (List.mem_singleton_self _), he, ?_⟩
      exact (Option.some.inj hlkk)
    · rw [alookup_ainsert_ne _ k k' _ he] at hlkk
      rcases h6 k' tid' hlkk with ⟨tm, hp, hkey, htid⟩
      exact ⟨tm, List.mem_append_left _ hp, hkey, htid⟩
  · intro tm hm
    rcases List.mem_append.mp hm with hl | hr
    · exact Nat.lt_succ_of_lt (h7 tm hl)
    · have := List.mem_singleton.mp hr
      rw [this]
      exact Nat.lt_succ_self _

theorem foldl_fireOne_pending :
    ∀ (due : List PendingTimer) (s0 : CacheSys),
      (due.foldl fireOne s0).pending = s0.pending := by
  intro due
  induction due with
  | nil => intro s0; rfl
  | cons d ds ih => intro s0; rw [List.foldl_cons, ih]; rfl

theorem foldl_fireOne_nextId :
    ∀ (due : List PendingTimer) (s0 : CacheSys),
      (due.foldl fireOne s0).nextId = s0.nextId := by
  intro due
  induction due with
  | nil => intro s0; rfl
  | cons d ds ih => intro s0; rw [List.foldl_cons, ih]; rfl

theorem foldl_fireOne_mem_lookup :
    ∀ (due : List PendingTimer) (s0 : CacheSys) (k : String),
      (∀ d ∈ due, d.key ≠ k) →
      alookup (due.foldl fireOne s0).mem k = alookup s0.mem k := by
  intro due
  induction due with
  | nil => intro s0 k _; rfl
  | cons d ds ih =>
    intro s0 k h
    rw [List.foldl_cons, ih (fireOne s0 d) k (fun d2 hd2 => h d2 (List.mem_cons_of_mem d hd2))]
    exact alookup_aerase_ne s0.mem d.key k (h d (List.mem_cons_self d ds))

theorem foldl_fireOne_timeouts_ne :
    ∀ (due : List PendingTimer) (s0 : CacheSys) (k : String),
      (∀ d ∈ due, d.key ≠ k) →
      alookup (due.foldl fireOne s0).timeouts k = alookup s0.timeouts k := by
  intro due
  induction due with
  | nil => intro s0 k _; rfl
  | cons d ds ih =>
    intro s0 k h
    rw [List.foldl_cons, ih (fireOne s0 d) k (fun d2 hd2 => h d2 (List.mem_cons_of_mem d hd2))]
    exact alookup_aerase_ne s0.timeouts d.key k (h d (List.mem_cons_self d ds))

theorem foldl_fireOne_nodup :
    ∀ (due : List PendingTimer) (s0 : CacheSys),
      (akeys s0.mem).Nodup → (akeys s0.timeouts).Nodup →
      (akeys (due.foldl fireOne s0).mem).Nodup ∧
      (akeys (due.foldl fireOne s0).timeouts).Nodup := by
  intro due
  induction due with
  | nil => intro s0 hm ht; exact ⟨hm, ht⟩
  | cons d ds ih =>
    intro s0 hm ht
    rw [List.foldl_cons]
    exact ih (fireOne s0 d) (akeys_aerase_nodup s0.mem d.key hm)
      (akeys_aerase_nodup s0.timeouts d.key ht)

theorem foldl_fireOne_timeouts_some :
    ∀ (due : List PendingTimer) (s0 : CacheSys) (k : String) (tid : Nat),
      (akeys s0.timeouts).Nodup →
      alookup (due.foldl fireOne s0).timeouts k = some tid →
      alookup s0.timeouts k = some tid ∧ ∀ d ∈ due, d.key ≠ k := by
  intro due
  induction due with
  | nil => intro s0 k tid _ h; exact ⟨h, by intro d hd; simp at hd⟩
  | cons d ds ih =>
    intro s0 k tid hnd hlk
    rw [List.foldl_cons] at hlk
    rcases ih (fireOne s0 d) k tid (akeys_aerase_nodup s0.timeouts d.key hnd) hlk with ⟨hl1, hds⟩
    have hdk : d.key ≠ k := by
      intro e
      have hnone : alookup (fireOne s0 d).timeouts k = none := by
        show alookup (aerase s0.timeouts d.key) k = none
        rw [e]
        exact alookup_aerase_self s0.timeouts k hnd
      rw [hnone] at hl1
      exact Option.noConfusion hl1
    constructor
    · have : alookup (fireOne s0 d).timeouts k = alookup s0.timeouts k :=
        alookup_aerase_ne s0.timeouts d.key k hdk
      rw [← this]
      exact hl1
    · intro d2 hd2
      rcases List.mem_cons.mp hd2 with e | hm
      · rw [e]; exact hdk
      · exact hds d2 hm

theorem fireDue_inv (t : ℤ) (s : CacheSys) (hinv : CacheInv s) :
    CacheInv (fireDue t s) ∧ (fireDue t s).pending =
      s.pending.filter (fun tm => !(decide (tm.fireAt ≤ t))) := by
  obtain ⟨h1, h2, h3, h4, h5, h6, h7⟩ := hinv
  have hpend : (fireDue t s).pending =
      s.pending.filter (fun tm => !(decide (tm.fireAt ≤ t))) :=
    foldl_fireOne_pending _ _
  have hnid : (fireDue t s).nextId = s.nextId := foldl_fireOne_nextId _ _
  have hrest_sub : (s.pending.filter (fun tm => !(decide (tm.fireAt ≤ t)))).Sublist s.pending :=
    List.filter_sublist s.pending
  have hnodup2 := foldl_fireOne_nodup
    (s.pending.filter (fun tm => decide (tm.fireAt ≤ t)))
    { s with pending := s.pending.filter (fun tm => !(decide (tm.fireAt ≤ t))) } h1 h2
  have hfd : fireDue t s =
      (s.pending.filter (fun tm => decide (tm.fireAt ≤ t))).foldl fireOne
        { s with pending := s.pending.filter (fun tm => !(decide (tm.fireAt ≤ t))) } := rfl
  refine ⟨⟨hnodup2.1, hnodup2.2, ?_, ?_, ?_, ?_, ?_⟩, hpend⟩
  · rw [hpend]
    exact List.Nodup.sublist (hrest_sub.map (fun tm => tm.key)) h3
  · rw [hpend]
    exact List.Nodup.sublist (hrest_sub.map (fun tm => tm.tid)) h4
  · intro tm hm
    rw [hpend] at hm
    rcases List.mem_filter.mp hm with ⟨hp, hb⟩
    have hnle : ¬ (tm.fireAt ≤ t) := by simpa using hb
    have hdue : ∀ d ∈ s.pending.filter (fun tm => decide (tm.fireAt ≤ t)), d.key ≠ tm.key := by
      intro d hd e
      rcases List.mem_filter.mp hd with ⟨hdp, hdb⟩
      have : d = tm := List.inj_on_of_nodup_map h3 hdp hp e
      rw [this] at hdb
      exact hnle (by simpa using hdb)
    have hte := foldl_fireOne_timeouts_ne
      (s.pending.filter (fun tm => decide (tm.fireAt ≤ t)))
      { s with pending := s.pending.filter (fun tm => !(decide (tm.fireAt ≤ t))) }
      tm.key hdue
    rw [hfd, hte]
    exact h5 tm hp
  · intro k tid hlk
    rw [hfd] at hlk
    rcases foldl_fireOne_timeouts_some
      (s.pending.filter (fun tm => decide (tm.fireAt ≤ t)))
      { s with pending := s.pending.filter (fun tm => !(decide (tm.fireAt ≤ t))) }
      k tid h2 hlk with ⟨hl0, hdk⟩
    rcases h6 k tid hl0 with ⟨tm, hp, hkey, htid⟩
    refine ⟨tm, ?_, hkey, htid⟩
    rw [hpend, List.mem_filter]
    refine ⟨hp, ?_⟩
    by_cases hle : tm.fireAt ≤ t
    · exfalso
      have : tm ∈ s.pending.filter (fun tm => decide (tm.fireAt ≤ t)) :=
        List.mem_filter.mpr ⟨hp, by simpa using hle⟩
      exact hdk tm this hkey
    · simpa using hle
  · intro tm hm
    rw [hpend] at hm
    rw [hnid]
    exact h7 tm ((List.mem_filter.mp hm).1)

theorem initCache_inv : CacheInv initCache := by
  refine ⟨?_, ?_, ?_, ?_, ?_, ?_, ?_⟩ <;>
    simp [initCache, akeys, alookup]

/-- C1 (amended).  If set(k, v, ttl) at instant t0 is followed at t1, before
the first TTL elapses, by set(k, v2, ttl2), then the first expiration was
cancelled before the new entry and timer were installed: at the instant
t0 + ttl (with t1 + ttl2 still in the future) firing every due timer leaves
the entry for k holding v2, and get(k) returns v2 provided v2 is truthy
(for a falsy v2 the entry also survives but get coerces it to a miss, see
the counterexample); every reachable state keeps at most one pending
expiration timer per key. -/
theorem claim_C1 :
    ∀ (s0 : CacheSys) (k : String) (v v2 : JsValue) (ttl ttl2 t0 t1 : ℤ),
      CacheInv s0 → t0 ≤ t1 → t1 < t0 + ttl → t0 + ttl < t1 + ttl2 →
      atMostOneTimerPerKey (setCacheWithExpiration k v ttl t0 s0) ∧
      atMostOneTimerPerKey
        (setCacheWithExpiration k v2 ttl2 t1 (setCacheWithExpiration k v ttl t0 s0)) ∧
      atMostOneTimerPerKey
        (fireDue (t0 + ttl)
          (setCacheWithExpiration k v2 ttl2 t1 (setCacheWithExpiration k v ttl t0 s0))) ∧
      alookup
        (fireDue (t0 + ttl)
          (setCacheWithExpiration k v2 ttl2 t1 (setCacheWithExpiration k v ttl t0 s0))).mem
        k = some v2 ∧
      (truthy v2 = true →
        getCache k
          (fireDue (t0 + ttl)
            (setCacheWithExpiration k v2 ttl2 t1 (setCacheWithExpiration k v ttl t0 s0))) =
          some v2) := by
  intro s0 k v v2 ttl ttl2 t0 t1 hinv h01 hlt1 hlt2
  have hinvA : CacheInv (setCacheWithExpiration k v ttl t0 s0) :=
    setCache_inv k v ttl t0 s0 hinv
  set sA := setCacheWithExpiration k v ttl t0 s0 with hsA
  have hinvB : CacheInv (setCacheWithExpiration k v2 ttl2 t1 sA) :=
    setCache_inv k v2 ttl2 t1 sA hinvA
  set sB := setCacheWithExpiration k v2 ttl2 t1 sA with hsB
  have hinvC := fireDue_inv (t0 + ttl) sB hinvB
  have hmemB : alookup sB.mem k = some v2 :=
    alookup_ainsert_self (clearExpired k sA).mem k v2
  have hpendB : sB.pending =
      (clearExpired k sA).pending ++
        [{ tid := (clearExpired k sA).nextId, key := k, fireAt := t1 + ttl2 }] := rfl
  have hkeysafe : ∀ d ∈ sB.pending, d.fireAt ≤ t0 + ttl → d.key ≠ k := by
    intro d hd hle
    rw [hpendB] at hd
    rcases List.mem_append.mp hd with hl | hr
    · exact (clearExpired_spec k sA hinvA).2.1 d hl
    · have hde := List.mem_singleton.mp hr
      rw [hde] at hle
      exact absurd hle (not_le.mpr hlt2)
  have hdue : ∀ d ∈ sB.pending.filter (fun tm => decide (tm.fireAt ≤ t0 + ttl)),
      d.key ≠ k := by
    intro d hd
    rcases List.mem_filter.mp hd with ⟨hp, hb⟩
    exact hkeysafe d hp (by simpa using hb)
  have hfd : fireDue (t0 + ttl) sB =
      (sB.pending.filter (fun tm => decide (tm.fireAt ≤ t0 + ttl))).foldl fireOne
        { sB with pending := sB.pending.filter (fun tm => !(decide (tm.fireAt ≤ t0 + ttl))) } :=
    rfl
  have haf : alookup (fireDue (t0 + ttl) sB).mem k = some v2 := by
    rw [hfd, foldl_fireOne_mem_lookup _ _ k hdue]
    exact hmemB
  refine ⟨atMostOne_of_nodup _ hinvA.2.2.1, atMostOne_of_nodup _ hinvB.2.2.1,
    atMostOne_of_nodup _ hinvC.1.2.2.1, haf, ?_⟩
  intro htr
  simp [getCache, haf, htr]

/-- C1 witness: concrete run from the empty cache with k set to 1 at t=0
with TTL 10, overwritten with a (truthy) object at t=5 with TTL 10; after
firing every timer due at t=10 the entry still holds the object. -/
theorem claim_C1_witness :
    alookup
      (fireDue 10
        (setCacheWithExpiration "k" (JsValue.vObj 0) 10 5
          (setCacheWithExpiration "k" (JsValue.vNum 1) 10 0 initCache))).mem
      "k" = some (JsValue.vObj 0) :=
  (claim_C1 initCache "k" (JsValue.vNum 1) (JsValue.vObj 0) 10 10 0 5 initCache_inv
    (by decide) (by decide) (by decide)).2.2.2.1

/-- C1 counterexample: the claim as stated promises that get(k) returns v2
after the original TTL has elapsed, for EVERY value v2.  Storing the falsy
number 0 as v2 refutes it: after the same schedule the entry is live and
holds 0, yet get(k) returns null. -/
theorem claim_C1_cex :
    alookup
      (fireDue 10
        (setCacheWithExpiration "k" (JsValue.vNum 0) 10 5
          (setCacheWithExpiration "k" (JsValue.vNum 1) 10 0 initCache))).mem
      "k" = some (JsValue.vNum 0) ∧
    getCache "k"
      (fireDue 10
        (setCacheWithExpiration "k" (JsValue.vNum 0) 10 5
          (setCacheWithExpiration "k" (JsValue.vNum 1) 10 0 initCache))) = none := by
  exact ⟨by decide, by decide⟩
